import Mathlib

/-!
# The entity store of the state watcher (`state/megawatcher.go`)

A shallow embedding of `allInfo`, the revision-ordered cache of entity
snapshots, and of its operations `add`, `delete`, `update` and `changesSince`,
of the loop of the state watcher and of the JSON form of a Delta; and, in the
namespace `Jujuc`, of the hook command relation-get.

Modelling conventions
* `revno int64` is an `Int`: the counter starts at 0 and only ever grows by one
  per mutation.
* The store is a `container/list` list plus a map from `entityId` to
  `*list.Element`.  A list element is a pair of its pointer identity (`addr`)
  and its value; the field `nextAddr` is the allocator that `PushFront` draws a
  fresh element from.
* `update` reads a document from mongo.  The outcome of that read,
  `collection.FindId(info.EntityId()).One(info)`, is a parameter of `update`;
  `updateFrom` takes it from the documents of mongo, under the key the source
  asks for.
* A Go `panic` and a returned `error` are distinct outcomes, each carrying the
  store as it is at that moment.
-/

namespace Megawatcher

/-- MachineInfo holds the information about a Machine that is watched. -/
structure MachineInfo where
  Id : String
  InstanceId : String
deriving DecidableEq, Repr

/-- EntityInfo is the interface implemented by all entity Info types; in the
source `*MachineInfo` is the one type with the two methods. -/
inductive EntityInfo where
  | machine (m : MachineInfo)
deriving DecidableEq, Repr

/-- Method `EntityId()`. -/
def EntityInfo.EntityId : EntityInfo → String
  | .machine m => m.Id

/-- Method `EntityKind()`. -/
def EntityInfo.EntityKind : EntityInfo → String
  | .machine _ => "machine"

/-- An `mgo.Collection`, of which the store uses the name. -/
structure Collection where
  Name : String
deriving DecidableEq, Repr

/-- The part of `State` the store reads: the machines collection. -/
structure State where
  machines : Collection
deriving DecidableEq, Repr

/-- Function `infoCollection`: the collection that holds the given kind of
entity info.  The `panic("unknown entity type")` after the type switch has no
value of `EntityInfo` to reach it. -/
def infoCollection (st : State) : EntityInfo → Collection
  | .machine _ => st.machines

/-- The mongo identifier of an entity. -/
structure entityId where
  collection : String
  id : String
deriving DecidableEq, Repr

/-- Function `infoEntityId` (called `docEntityId` inside `add`): the entity id
of the given entity document.  The source takes the collection from
`docCollection(st, doc)`; the collection lookup the file defines is
`infoCollection`. -/
def infoEntityId (st : State) (info : EntityInfo) : entityId :=
  { collection := (infoCollection st info).Name, id := info.EntityId }

/-- An entry in the linked list of all entities known to a StateWatcher. -/
structure entityEntry where
  revno : Int
  removed : Bool
  info : EntityInfo
deriving DecidableEq, Repr

/-- A `*list.Element`: its pointer identity and the `*entityEntry` it holds. -/
structure Element where
  addr : Nat
  Value : entityEntry
deriving DecidableEq, Repr

/-- The list of all entities known to a StateWatcher. -/
structure allInfo where
  st : State
  newInfo : List (String × EntityInfo)
  latestRevno : Int
  entities : List (entityId × Nat)
  list : List Element
  nextAddr : Nat
deriving DecidableEq, Repr

/-- Map read `m[k]`. -/
def mapGet (m : List (entityId × Nat)) (k : entityId) : Option Nat :=
  match m with
  | [] => none
  | kv :: rest => if kv.1 = k then some kv.2 else mapGet rest k

/-- Map removal `delete(m, k)`. -/
def mapDelete (m : List (entityId × Nat)) (k : entityId) : List (entityId × Nat) :=
  m.filter (fun kv => decide (kv.1 ≠ k))

/-- Map write `m[k] = v`. -/
def mapSet (m : List (entityId × Nat)) (k : entityId) (v : Nat) : List (entityId × Nat) :=
  (k, v) :: mapDelete m k

/-- Registry read `a.newInfo[c]`: the zero value the factory for `c` builds. -/
def registryGet (m : List (String × EntityInfo)) (c : String) : Option EntityInfo :=
  match m with
  | [] => none
  | kv :: rest => if kv.1 = c then some kv.2 else registryGet rest c

/-- The element a pointer denotes. -/
def elemAt (l : List Element) (p : Nat) : Option Element :=
  l.find? (fun e => decide (e.addr = p))

/-- Method `list.Remove(elem)`. -/
def listRemove (l : List Element) (p : Nat) : List Element :=
  l.filter (fun e => decide (e.addr ≠ p))

/-- Assignment `elem.Value.(*entityEntry).removed = true` through the pointer. -/
def markRemoved (l : List Element) (p : Nat) : List Element :=
  l.map (fun e => if e.addr = p then { e with Value := { e.Value with removed := true } } else e)

/-- The outcome of a store operation. -/
inductive Outcome where
  | ok (a : allInfo)
  | error (msg : String) (a : allInfo)
  | panic (msg : String) (a : allInfo)
deriving DecidableEq, Repr

/-- The outcome of reading one document from mongo. -/
inductive FetchResult where
  | found (info : EntityInfo)
  | notFound
  | failed (err : String)
deriving DecidableEq, Repr

/-- A change to be sent to a client. -/
structure Delta where
  Removed : Bool
  Entity : EntityInfo
deriving DecidableEq, Repr

/-- The documents of mongo as `update` reads them: for a collection name and
an id, the outcome of `FindId(id).One(info)` on that collection. -/
abbrev Mongo := String → String → FetchResult

namespace allInfo

/-- The store as `StateWatcher.loop` builds it before `getAll`: no entities,
revno 0, and the given table of factories. -/
def empty (st : State) (newInfo : List (String × EntityInfo)) : allInfo :=
  { st := st, newInfo := newInfo, latestRevno := 0, entities := [], list := [], nextAddr := 0 }

/-- The read `elem := a.entities[id]`, dereferenced: the list element the index
holds for `id`, `none` for Go's nil.  The index of a store only ever holds
pointers to elements of its list. -/
def elem (a : allInfo) (id : entityId) : Option Element :=
  match mapGet a.entities id with
  | none => none
  | some p => elemAt a.list p

/-- Method `add`: adds a new entity to the list. -/
def add (a : allInfo) (doc : EntityInfo) : allInfo :=
  let latest := a.latestRevno + 1
  let info : entityEntry := { info := doc, revno := latest, removed := false }
  { a with
    latestRevno := latest
    entities := mapSet a.entities (infoEntityId a.st doc) a.nextAddr
    list := { addr := a.nextAddr, Value := info } :: a.list
    nextAddr := a.nextAddr + 1 }

/-- Method `delete`: deletes an entity from the list. -/
def delete (a : allInfo) (id : entityId) : Outcome :=
  match a.elem id with
  | some e =>
    if !e.Value.removed then
      .panic "deleting entry that has not been marked as removed" a
    else
      .ok { a with entities := mapDelete a.entities id, list := listRemove a.list e.addr }
  | none => .ok a

/-- Method `update`, from the outcome `fetched` of its read of mongo on:
`fetched` is what `collection.FindId(info.EntityId()).One(info)` gives, whatever
document that is.  The key of that read is in `allInfo.updateFrom`. -/
def update (a : allInfo) (id : entityId) (fetched : FetchResult) : Outcome :=
  match registryGet a.newInfo id.collection with
  | none => .panic "runtime error: invalid memory address or nil pointer dereference" a
  | some info0 =>
    let collection := infoCollection a.st info0
    match fetched with
    | .notFound =>
      match a.elem id with
      | some e => .ok { a with list := markRemoved a.list e.addr }
      | none => .ok a
    | .failed err =>
      .error ("cannot get " ++ id.id ++ " from " ++ collection.Name ++ ": " ++ err) a
    | .found info =>
      match a.elem id with
      | some e =>
        let latest := a.latestRevno + 1
        let entry : entityEntry := { e.Value with revno := latest, info := info }
        .ok { a with
              latestRevno := latest
              list := { addr := e.addr, Value := entry } :: listRemove a.list e.addr }
      | none => .ok (a.add info)

/-- Method `update` with its read of mongo.  The source asks for the document
under `info.EntityId()`, the id of the value the factory has just built, in the
collection of that value; `id.id` is used for the index and for the error
message only. -/
def updateFrom (a : allInfo) (db : Mongo) (id : entityId) : Outcome :=
  match registryGet a.newInfo id.collection with
  | none => a.update id .notFound
  | some info => a.update id (db (infoCollection a.st info).Name info.EntityId)

/-- The loop of `changesSince`: from the front of the list, every entry up to
the first one whose revno is not above `revno`, each turned into a Delta of its
removed flag and info.  The source is an unfinished draft: it files each entry
under `deltas[entry.removed][entry.info.EntityKind()]`, and neither the use of
that table nor the order of the returned slice can be read from it.  The
deltas are listed here in the order the loop visits the entries; what is proved
of the result holds of them whatever that order. -/
def iter (revno : Int) : List Element → List Delta
  | [] => []
  | e :: rest =>
    if e.Value.revno ≤ revno then []
    else { Removed := e.Value.removed, Entity := e.Value.info } :: iter revno rest

/-- Modelled from the spec: the second result of `changesSince`, for which the
source has the result type `int64` and no return statement: "the highest revno
observed (the store's current global revno, to be used as the client's next
baseline)". -/
def newRevno (a : allInfo) : Int := a.latestRevno

/-- Method `changesSince`: the changes the loop collects, and the global
revno. -/
def changesSince (a : allInfo) (revno : Int) : List Delta × Int :=
  (iter revno a.list, a.newRevno)

end allInfo

/-- The Delta of a list element. -/
def Element.toDelta (e : Element) : Delta :=
  { Removed := e.Value.removed, Entity := e.Value.info }

/-- The revnos of a list, front first. -/
def revnos (l : List Element) : List Int := l.map (fun e => e.Value.revno)

/-- The pointer identities of a list, front first. -/
def addrs (l : List Element) : List Nat := l.map (fun e => e.addr)

/-- The entity ids of a list of deltas, in order. -/
def deltaIds (st : State) (ds : List Delta) : List entityId :=
  ds.map (fun d => infoEntityId st d.Entity)

/-! ## Sample data for the scenarios -/

/-- A state whose machines collection is named "machines". -/
def sampleState : State := { machines := { Name := "machines" } }

/-- The table of factories `StateWatcher.loop` installs: the machines
collection builds a zero `MachineInfo`. -/
def sampleRegistry : List (String × EntityInfo) :=
  [(sampleState.machines.Name, .machine { Id := "", InstanceId := "" })]

/-- Machine "0". -/
def machine0 : EntityInfo := .machine { Id := "0", InstanceId := "" }

/-- Machine "0" with a changed instance id. -/
def machine0b : EntityInfo := .machine { Id := "0", InstanceId := "i-0" }

/-- Machine "1". -/
def machine1 : EntityInfo := .machine { Id := "1", InstanceId := "" }

/-- The entity id of machine "0". -/
def id0 : entityId := { collection := "machines", id := "0" }

/-- The entity id of machine "1". -/
def id1 : entityId := { collection := "machines", id := "1" }

/-- A mongo whose machines collection holds machine "0" with a changed instance
id, and no other document. -/
def sampleMongo : Mongo := fun c k =>
  if c = "machines" ∧ k = "0" then .found machine0b else .notFound

/-- A machine document whose id is the empty string. -/
def machineNoId : EntityInfo := .machine { Id := "", InstanceId := "i-9" }

/-- A mongo whose machines collection holds one document, under the empty
id. -/
def sampleMongoNoId : Mongo := fun c k =>
  if c = "machines" ∧ k = "" then .found machineNoId else .notFound

/-- The empty store of the scenarios. -/
def store0 : allInfo := allInfo.empty sampleState sampleRegistry

/-- The store after `add(machine "0")`. -/
def store1 : allInfo := store0.add machine0

/-- The store after `add(machine "0")` and `add(machine "1")`. -/
def store2 : allInfo := store1.add machine1

/-- The store after machine "0" was added and then marked removed. -/
def store1Removed : allInfo :=
  { store1 with list := [{ addr := 0, Value := { revno := 1, removed := true, info := machine0 } }] }

/-! ## Sequences of store operations -/

/-- A store operation; an update comes with the document read it meets. -/
inductive Op where
  | add (info : EntityInfo)
  | update (id : entityId) (fetched : FetchResult)
  | delete (id : entityId)
deriving DecidableEq, Repr

/-- One operation on the store. -/
def allInfo.step (a : allInfo) : Op → Outcome
  | .add info => .ok (a.add info)
  | .update id fetched => a.update id fetched
  | .delete id => a.delete id

/-- An operation of a history of adds and updates on distinct ids: an add is of
an entity whose id has no entry, and the document an update reads for `id` is
the document of `id`. -/
def Op.distinct (a : allInfo) : Op → Bool
  | .add info => (mapGet a.entities (infoEntityId a.st info)).isNone
  | .update id (.found info) => decide (infoEntityId a.st info = id)
  | .update _ _ => true
  | .delete _ => false

/-- The latest info of each entity after a history: the info of the last add
of the entity or of the last update that read a document for it. -/
def latestInfo (st : State) (f : entityId → Option EntityInfo) :
    List Op → entityId → Option EntityInfo
  | [] => f
  | .add info :: rest => latestInfo st (Function.update f (infoEntityId st info) (some info)) rest
  | .update id (.found info) :: rest => latestInfo st (Function.update f id (some info)) rest
  | _ :: rest => latestInfo st f rest

/-- The store after a history of operations, or the first error or panic. -/
def allInfo.run (a : allInfo) : List Op → Outcome
  | [] => .ok a
  | op :: rest =>
    match a.step op with
    | .ok a2 => a2.run rest
    | .error msg a2 => .error msg a2
    | .panic msg a2 => .panic msg a2

/-- The store holding machine "0" after an update whose read found machine "0"
with a changed instance id. -/
def storeB : allInfo :=
  { store1 with
    latestRevno := 2
    list := [{ addr := 0, Value := { revno := 2, removed := false, info := machine0b } }] }

/-- The representation invariant of a store built by adds and updates on
distinct ids, with `f` the latest info of each entity: element pointers are
distinct and allocated, the index and the sequence hold the same entities, each
under its own entity id, and every entry holds the latest info of its entity. -/
structure Inv (st : State) (f : entityId → Option EntityInfo) (a : allInfo) : Prop where
  st_eq : a.st = st
  nodup : (addrs a.list).Nodup
  alloc : ∀ e ∈ a.list, e.addr < a.nextAddr
  index_sound : ∀ k p, mapGet a.entities k = some p →
    ∃ e ∈ a.list, e.addr = p ∧ infoEntityId st e.Value.info = k
  index_complete : ∀ e ∈ a.list, mapGet a.entities (infoEntityId st e.Value.info) = some e.addr
  latest : ∀ e ∈ a.list, f (infoEntityId st e.Value.info) = some e.Value.info

/-- Pointer bookkeeping of a store: the elements of the list have distinct
pointers, all of them allocated. -/
def AddrsOk (a : allInfo) : Prop :=
  (addrs a.list).Nodup ∧ ∀ e ∈ a.list, e.addr < a.nextAddr

/-- An operation of a history in which every add is of an entity whose id has
no entry, as in `update` and `getAll`, and the document an update reads for
`id` is the document of `id`; a delete is of any id. -/
def Op.fresh (a : allInfo) : Op → Bool
  | .add info => (mapGet a.entities (infoEntityId a.st info)).isNone
  | .update id (.found info) => decide (infoEntityId a.st info = id)
  | .update _ _ => true
  | .delete _ => true

/-- The store after a history of such operations, each of which returns
normally; `none` for any other history. -/
def allInfo.runFresh (a : allInfo) : List Op → Option allInfo
  | [] => some a
  | op :: rest =>
    if op.fresh a then
      match a.step op with
      | .ok a2 => a2.runFresh rest
      | _ => none
    else none

/-- The entity ids of the entries of a list, front first. -/
def entryIds (st : State) (l : List Element) : List entityId :=
  l.map (fun e => infoEntityId st e.Value.info)

/-! ## The JSON form of a Delta -/

deriving instance DecidableEq for Except

/-- The double quote character. -/
def dquote : Char := Char.ofNat 34

/-- The backslash character. -/
def backslash : Char := Char.ofNat 92

/-- The opening brace character. -/
def lbrace : Char := Char.ofNat 123

/-- The closing brace character. -/
def rbrace : Char := Char.ofNat 125

/-- The escapes of the verb `%q` of `fmt` for a double quote and a backslash;
the kind and tag strings it is given hold no other character that `%q` would
escape. -/
def quoteChars : List Char → List Char
  | [] => []
  | c :: rest =>
    if c = dquote ∨ c = backslash then backslash :: c :: quoteChars rest
    else c :: quoteChars rest

/-- The verb `%q` of `fmt`: the string, escaped, between double quotes. -/
def quote (s : String) : String :=
  String.mk (dquote :: quoteChars s.data ++ [dquote])

/-- Method `MarshalJSON` of Delta; `marshal` is `json.Marshal`. -/
def Delta.MarshalJSON (marshal : EntityInfo → Except String String) (d : Delta) :
    Except String String :=
  match marshal d.Entity with
  | .error err => .error err
  | .ok b =>
    let buf := "".push '['
    let c := if d.Removed then "remove" else "change"
    let buf := buf ++ ("[" ++ quote d.Entity.EntityKind ++ "," ++ quote c ++ ",")
    let buf := buf ++ b
    let buf := buf.push ']'
    .ok buf

/-- What `json.Marshal` gives for a `*MachineInfo`: an object of its two
exported fields. -/
def sampleMarshal : EntityInfo → Except String String
  | .machine m =>
    .ok ((String.singleton lbrace ++ quote "Id" ++ ":" ++ quote m.Id ++ "," ++
      quote "InstanceId" ++ ":" ++ quote m.InstanceId).push rbrace)

/-- The state of the scan of a JSON array: the closing brackets owed by the
values open inside the current element, whether the scan is inside a string and
after a backslash, the current element (reversed) and the finished elements
(reversed). -/
structure Scan where
  stack : List Char
  inStr : Bool
  esc : Bool
  cur : List Char
  elems : List String
deriving DecidableEq, Repr

/-- The elements of a scan that has met the closing bracket of the array. -/
def Scan.finish (s : Scan) : List String :=
  if s.elems = [] ∧ s.cur = [] then [] else (String.mk s.cur.reverse :: s.elems).reverse

/-- The scan of the text after the opening bracket of a JSON array. -/
def scanArray : Scan → List Char → Except String (List String)
  | _, [] => .error "unexpected end of JSON input"
  | s, c :: rest =>
    if s.inStr then
      if s.esc then scanArray { s with esc := false, cur := c :: s.cur } rest
      else if c = backslash then scanArray { s with esc := true, cur := c :: s.cur } rest
      else if c = dquote then scanArray { s with inStr := false, cur := c :: s.cur } rest
      else scanArray { s with cur := c :: s.cur } rest
    else if c = dquote then scanArray { s with inStr := true, cur := c :: s.cur } rest
    else if c = '[' then scanArray { s with stack := ']' :: s.stack, cur := c :: s.cur } rest
    else if c = lbrace then scanArray { s with stack := rbrace :: s.stack, cur := c :: s.cur } rest
    else if c = ']' ∨ c = rbrace then
      match s.stack with
      | [] =>
        if c = ']' ∧ rest = [] then .ok s.finish
        else .error "invalid character after top-level value"
      | t :: st =>
        if c = t then scanArray { s with stack := st, cur := c :: s.cur } rest
        else .error "invalid character looking for beginning of value"
    else if c = ',' ∧ s.stack = [] then
      scanArray { s with cur := [], elems := String.mk s.cur.reverse :: s.elems } rest
    else scanArray { s with cur := c :: s.cur } rest

/-- The call `json.Unmarshal(b, &x)` for `x []interface{}`, as far as the
decoder uses it: the texts of the elements of the array `b`, or an error when
`b` is not an array with balanced brackets.  The syntax of the elements
themselves is not checked. -/
def jsonArray (b : String) : Except String (List String) :=
  match b.data with
  | '[' :: rest => scanArray { stack := [], inStr := false, esc := false, cur := [], elems := [] } rest
  | _ => .error "json: cannot unmarshal into Go value of type []interface {}"

/-- The fields the decoder of the source sets. -/
structure DecodedDelta where
  Delete : Bool
  Kind : String
deriving DecidableEq, Repr

/-- Method `UnmarshalJSON` of Delta as the source has it: a draft inside a
comment, which reads the tag ("change" or "delete") from the first element and
the kind from the second, and stops before the entity. -/
def Delta.UnmarshalJSON (b : String) : Except String DecodedDelta :=
  match jsonArray b with
  | .error err => .error err
  | .ok x =>
    match x with
    | [x0, x1, _] =>
      match (if x0 = quote "change" then some false
             else if x0 = quote "delete" then some true else none) with
      | none => .error ("bad delta JSON " ++ quote b)
      | some del =>
        if x1 = quote "machine" then .ok { Delete := del, Kind := "machine" }
        else .error ("bad delta JSON " ++ quote b)
    | _ => .error ("bad delta JSON " ++ quote b)

/-- The array of kind, tag and payload for the change of machine "0". -/
def wireMachine0 : String :=
  "[" ++ quote "machine" ++ "," ++ quote "change" ++ "," ++
    (String.singleton lbrace ++ quote "Id" ++ ":" ++ quote "0" ++ "," ++
      quote "InstanceId" ++ ":" ++ quote "").push rbrace ++ "]"

/-! ## The loop of the state watcher -/

/-- A request of `Get`: the requested revision number and, on reply, the
changes.  The reply channel is not part of the model. -/
structure getRequest where
  revno : Int
  changes : List Delta
deriving DecidableEq, Repr

/-- What the `select` of `StateWatcher.loop` receives: the tomb dying, a change
from the watcher (with the document read `update` then meets), or a request. -/
inductive LoopEvent where
  | dying
  | change (C : String) (Id : String) (fetched : FetchResult)
  | request (req : getRequest)
deriving DecidableEq, Repr

/-- How `StateWatcher.loop` stands after the events received so far: still in
the `for` loop, returned with an error, or panicked. -/
inductive LoopResult where
  | running (all : allInfo) (currentRequest : Option getRequest)
  | returned (err : String)
  | panicked (msg : String)
deriving DecidableEq, Repr

/-- The `for`/`select` of `StateWatcher.loop` over the events it receives, from
the store `all` and the variable `currentRequest`. -/
def StateWatcher.loop (all : allInfo) (currentRequest : Option getRequest) :
    List LoopEvent → LoopResult
  | [] => .running all currentRequest
  | .dying :: _ => .returned "tomb: dying"
  | .change C Id fetched :: rest =>
    match all.update { collection := C, id := Id } fetched with
    | .ok all2 => StateWatcher.loop all2 currentRequest rest
    | .error err _ => .returned err
    | .panic msg _ => .panicked msg
  | .request _ :: rest =>
    match currentRequest with
    | some _ => .panicked "cannot have two outstanding get requests"
    | none => StateWatcher.loop all currentRequest rest

/-- The store after machines "0" and "1" were added and machine "0" was
updated, marked removed and deleted. -/
def fullHistoryStore : allInfo :=
  { st := sampleState, newInfo := sampleRegistry, latestRevno := 3,
    entities := [(id1, 1)],
    list := [{ addr := 1, Value := { revno := 2, removed := false, info := machine1 } }],
    nextAddr := 2 }

/-- Pointer soundness of the index of a store: the pointers of the list are
distinct and allocated, every index value is the pointer of an element of the
list, and distinct ids have distinct pointers. -/
def IndexOk (a : allInfo) : Prop :=
  AddrsOk a ∧ (∀ k p, mapGet a.entities k = some p → p ∈ addrs a.list) ∧
    ∀ k1 k2 p, mapGet a.entities k1 = some p → mapGet a.entities k2 = some p → k1 = k2

/-- The entity id of the machines document whose id is the empty string. -/
def idNo : entityId := { collection := "machines", id := "" }

/-- A history with a mongo that holds one machines document, under the empty
id: machines "0" and "1" are added, two updates of the empty id read that
document, and machine "0" is found missing and deleted. -/
def keyedHistory : List Op :=
  [.add machine0, .add machine1, .update idNo (.found machineNoId),
    .update idNo (.found machineNoId), .update id0 .notFound, .delete id0]

/-- The store after `keyedHistory`. -/
def keyedHistoryStore : allInfo :=
  { st := sampleState, newInfo := sampleRegistry, latestRevno := 4,
    entities := [(idNo, 2), (id1, 1)],
    list := [{ addr := 2, Value := { revno := 4, removed := false, info := machineNoId } },
             { addr := 1, Value := { revno := 2, removed := false, info := machine1 } }],
    nextAddr := 3 }

/-- The store holding machine "0" after an update of machine "0" that read the
document with the empty id. -/
def store1Mismatched : allInfo :=
  { store1 with
    latestRevno := 2
    list := [{ addr := 0, Value := { revno := 2, removed := false, info := machineNoId } }] }

/-- Revno bookkeeping of a store: the revnos of the list strictly descend from
the front, and none is above the global revno. -/
def RevnoOk (a : allInfo) : Prop :=
  (revnos a.list).Pairwise (fun x y => y < x) ∧ ∀ e ∈ a.list, e.Value.revno ≤ a.latestRevno

end Megawatcher

/-! # The hook command relation-get (`worker/uniter/jujuc/relation-get.go`) -/

namespace Jujuc

/-- Relation settings, a `map[string]interface{}`, with strings for values. -/
abbrev SettingsMap := List (String × String)

/-- Map read `settings[k]`: `none` is the nil of an absent key. -/
def SettingsMap.get (m : SettingsMap) (k : String) : Option String :=
  match m with
  | [] => none
  | kv :: rest => if kv.1 = k then some kv.2 else SettingsMap.get rest k

/-- A relation of the context, as `Run` reads it: `Settings()` followed by
`Map()`, and `ReadSettings(unit)`. -/
structure ContextRelation where
  Settings : Except String SettingsMap
  ReadSettings : String → Except String SettingsMap

/-- The hook context, as the command reads it. -/
structure Context where
  UnitName : String
  RemoteUnitName : Option String
  Relation : Int → Option ContextRelation

/-- RelationGetCommand implements the relation-get command. -/
structure RelationGetCommand where
  ctx : Context
  RelationId : Int
  Key : String
  UnitName : String

/-- Function `NewRelationGetCommand`. -/
def NewRelationGetCommand (ctx : Context) : RelationGetCommand :=
  { ctx := ctx, RelationId := 0, Key := "", UnitName := "" }

/-- The error values `Init` returns, by the place that makes them. -/
inductive InitError where
  | noRelationId
  | noUnitId
  | checkEmpty (err : String)
deriving DecidableEq, Repr

/-- Method `Error()` of the errors of `Init`. -/
def InitError.Error : InitError → String
  | .noRelationId => "no relation id specified"
  | .noUnitId => "no unit id specified"
  | .checkEmpty err => err

/-- Method `Init`: the command after the call and the error it returns.
`CheckEmpty` is `cmd.CheckEmpty`. -/
def RelationGetCommand.Init (CheckEmpty : List String → Option String)
    (c : RelationGetCommand) (args : List String) : RelationGetCommand × Option InitError :=
  if c.RelationId = -1 then (c, some .noRelationId)
  else
    let c1 := { c with Key := "" }
    let p1 : RelationGetCommand × List String :=
      match args with
      | k :: rest => ({ c1 with Key := if k = "-" then "" else k }, rest)
      | [] => (c1, [])
    let c2 :=
      match p1.1.ctx.RemoteUnitName with
      | some name => { p1.1 with UnitName := name }
      | none => p1.1
    let p2 : RelationGetCommand × List String :=
      match p1.2 with
      | u :: rest => ({ c2 with UnitName := u }, rest)
      | [] => (c2, [])
    if p2.1.UnitName = "" then (p2.1, some .noUnitId)
    else (p2.1, (CheckEmpty p2.2).map InitError.checkEmpty)

/-- The value `Run` hands to `c.out.Write`: the settings map, or the value
under one key, nil if absent. -/
inductive Value where
  | settings (m : SettingsMap)
  | item (v : Option String)
deriving DecidableEq, Repr

/-- The outcome of `Run`: an error of its own, or the call of `c.out.Write`
with a value. -/
inductive RunResult where
  | failed (err : String)
  | wrote (value : Value)
deriving DecidableEq, Repr

/-- Method `Run`. -/
def RelationGetCommand.Run (c : RelationGetCommand) : RunResult :=
  match c.ctx.Relation c.RelationId with
  | none => .failed "unknown relation id"
  | some r =>
    let settings :=
      if c.UnitName = c.ctx.UnitName then r.Settings else r.ReadSettings c.UnitName
    match settings with
    | .error err => .failed err
    | .ok settings =>
      let value := if c.Key = "" then Value.settings settings else Value.item (settings.get c.Key)
      .wrote value

/-- The unit name `Init` settles on: the second argument when one is given,
else the remote unit name of the context when one exists, else none. -/
def chosenUnit (ctx : Context) (args : List String) : String :=
  match args with
  | _ :: u :: _ => u
  | _ => ctx.RemoteUnitName.getD ""

/-- The key `Init` settles on: none when no argument is given or the first
argument is "-", else the first argument. -/
def chosenKey (args : List String) : String :=
  match args with
  | [] => ""
  | k :: _ => if k = "-" then "" else k

/-- The call of `Init` on a new command whose flag `-r` gave `rid`. -/
def initOf (CheckEmpty : List String → Option String) (ctx : Context) (rid : Int)
    (args : List String) : RelationGetCommand × Option InitError :=
  ({ NewRelationGetCommand ctx with RelationId := rid }).Init CheckEmpty args

/-- A check of left-over arguments for the examples: an error unless there is
none. -/
def sampleCheckEmpty (args : List String) : Option String :=
  if args = [] then none else some "unrecognized args"

/-- A relation for the examples: the settings of the unit itself, and those of
any other unit. -/
def sampleRelation : ContextRelation :=
  { Settings := .ok [("private-address", "10.0.0.1")]
    ReadSettings := fun _ => .ok [("host", "10.0.0.2")] }

/-- A context for the examples: unit "mysql/0" in relation 1, with remote unit
"wordpress/0". -/
def sampleContext : Context :=
  { UnitName := "mysql/0"
    RemoteUnitName := some "wordpress/0"
    Relation := fun id => if id = 1 then some sampleRelation else none }

/-- The command of the examples: relation-get for relation 1. -/
def sampleCommand : RelationGetCommand :=
  { NewRelationGetCommand sampleContext with RelationId := 1 }

end Jujuc

namespace Megawatcher

/-! ## The map and the list -/

theorem mapGet_mapDelete_self (m : List (entityId × Nat)) (k : entityId) :
    mapGet (mapDelete m k) k = none := by
  induction m with
  | nil => rfl
  | cons kv rest ih =>
    by_cases h : kv.1 = k
    · simpa [mapDelete, h] using ih
    · simpa [mapDelete, mapGet, h] using ih

theorem mapGet_mapDelete_ne (m : List (entityId × Nat)) {k k2 : entityId} (hne : k2 ≠ k) :
    mapGet (mapDelete m k) k2 = mapGet m k2 := by
  induction m with
  | nil => rfl
  | cons kv rest ih =>
    unfold mapDelete at ih ⊢
    by_cases h : kv.1 = k
    · have h2 : kv.1 ≠ k2 := fun h3 => hne (h3.symm.trans h)
      rw [List.filter_cons_of_neg (by simpa using h), ih]
      simp [mapGet, h2]
    · rw [List.filter_cons_of_pos (by simpa using h)]
      by_cases h2 : kv.1 = k2
      · simp [mapGet, h2]
      · simp only [mapGet, h2, if_false]
        exact ih

theorem mapGet_mapSet_self (m : List (entityId × Nat)) (k : entityId) (v : Nat) :
    mapGet (mapSet m k v) k = some v := by
  simp [mapSet, mapGet]

theorem mapGet_mapSet_ne (m : List (entityId × Nat)) {k k2 : entityId} (v : Nat) (hne : k2 ≠ k) :
    mapGet (mapSet m k v) k2 = mapGet m k2 := by
  have h : k ≠ k2 := fun h => hne h.symm
  simp [mapSet, mapGet, h, mapGet_mapDelete_ne m hne]

theorem elemAt_some {l : List Element} {p : Nat} {e : Element} (h : elemAt l p = some e) :
    e ∈ l ∧ e.addr = p := by
  unfold elemAt at h
  have h1 := List.find?_some h
  exact ⟨List.mem_of_find?_eq_some h, by simpa using h1⟩

theorem elemAt_cons_self (e : Element) (l : List Element) : elemAt (e :: l) e.addr = some e := by
  simp [elemAt]

theorem listRemove_eq_erase {l : List Element} (hnd : (addrs l).Nodup) {e : Element}
    (he : e ∈ l) : listRemove l e.addr = l.erase e := by
  induction l with
  | nil => simp at he
  | cons x rest ih =>
    have hx : x.addr ∉ addrs rest := (List.nodup_cons.mp hnd).1
    have hrest : (addrs rest).Nodup := (List.nodup_cons.mp hnd).2
    by_cases hxe : x = e
    · subst hxe
      have hall : ∀ y ∈ rest, y.addr ≠ x.addr := by
        intro y hy hyx
        exact hx (by rw [← hyx]; exact List.mem_map_of_mem _ hy)
      have hfil : rest.filter (fun y => decide (y.addr ≠ x.addr)) = rest :=
        List.filter_eq_self.mpr (by intro y hy; simpa using hall y hy)
      unfold listRemove
      rw [List.filter_cons_of_neg (by simp), hfil, List.erase_cons_head]
    · have he2 : e ∈ rest := by
        rcases List.mem_cons.mp he with h | h
        · exact absurd h.symm hxe
        · exact h
      have hne : x.addr ≠ e.addr := by
        intro h
        exact hx (by rw [h]; exact List.mem_map_of_mem _ he2)
      have ih2 := ih hrest he2
      unfold listRemove at ih2 ⊢
      rw [List.filter_cons_of_pos (by simpa using hne), ih2, List.erase_cons_tail]
      simpa using hxe

theorem iter_eq_filter (R : Int) (l : List Element) (h : (revnos l).Pairwise (fun x y => y ≤ x)) :
    allInfo.iter R l = (l.filter (fun e => decide (R < e.Value.revno))).map Element.toDelta := by
  induction l with
  | nil => rfl
  | cons x rest ih =>
    have hp := List.pairwise_cons.mp h
    by_cases hx : x.Value.revno ≤ R
    · have hall : ∀ y ∈ rest, ¬ (R < y.Value.revno) := by
        intro y hy
        have h3 : y.Value.revno ≤ x.Value.revno :=
          hp.1 y.Value.revno (List.mem_map_of_mem _ hy)
        omega
      have hfil : rest.filter (fun e => decide (R < e.Value.revno)) = [] :=
        List.filter_eq_nil_iff.mpr (by intro y hy; simpa using hall y hy)
      have hx2 : ¬ (R < x.Value.revno) := by omega
      simp [allInfo.iter, hx, hx2, hfil]
    · have hx2 : R < x.Value.revno := by omega
      simp [allInfo.iter, hx, hx2, ih hp.2, Element.toDelta]

theorem iter_prefix {R1 R2 : Int} (h : R1 ≤ R2) (l : List Element) :
    allInfo.iter R2 l <+: allInfo.iter R1 l := by
  induction l with
  | nil => simp [allInfo.iter]
  | cons x rest ih =>
    by_cases hx : x.Value.revno ≤ R2
    · simp [allInfo.iter, hx]
    · have hx1 : ¬ x.Value.revno ≤ R1 := by omega
      simp only [allInfo.iter, hx, hx1, if_false]
      exact (List.prefix_cons_inj _).mpr ih

/-! ## changesSince -/

/-- Claim C9: for all revnos R1 < R2 queried against the same store, the deltas
of `changesSince(R2)` are an initial part of those of `changesSince(R1)`, so the
entity ids of `changesSince(R1)` include those of `changesSince(R2)`. -/
theorem changesSince_superset (a : allInfo) (R1 R2 : Int) (h : R1 < R2) :
    (a.changesSince R2).1 <+: (a.changesSince R1).1 ∧
      deltaIds a.st (a.changesSince R2).1 ⊆ deltaIds a.st (a.changesSince R1).1 := by
  have hp : allInfo.iter R2 a.list <+: allInfo.iter R1 a.list := iter_prefix (le_of_lt h) a.list
  refine ⟨hp, ?_⟩
  exact List.Sublist.subset (hp.sublist.map _)

/-- Witness of `changesSince_superset`: two machines, baselines 0 and 1. -/
theorem changesSince_superset_witness :
    (0 : Int) < 1 ∧
      ((store2.changesSince 1).1 <+: (store2.changesSince 0).1 ∧
        deltaIds store2.st (store2.changesSince 1).1 ⊆
          deltaIds store2.st (store2.changesSince 0).1) :=
  ⟨by decide, changesSince_superset store2 0 1 (by decide)⟩

/-! ## add -/

/-- Claim C4: for every store with global revno n and every entity info,
`add(info)` yields a store with global revno n+1 whose sequence is the old one
with a new non-removed entry holding info with revno n+1 in front, and whose
index maps the entity id of info to that entry; on the empty store,
`add(Machine id "0")` makes the revno 1 and `changesSince(0)` then returns
exactly one non-removal Delta of kind "machine" for id "0", with newRevno 1. -/
theorem add_spec (a : allInfo) (info : EntityInfo) (st : State)
    (reg : List (String × EntityInfo)) (iid : String) :
    (a.add info).latestRevno = a.latestRevno + 1 ∧
      (a.add info).list =
        { addr := a.nextAddr,
          Value := { revno := a.latestRevno + 1, removed := false, info := info } } :: a.list ∧
      (a.add info).elem (infoEntityId a.st info) =
        some { addr := a.nextAddr,
               Value := { revno := a.latestRevno + 1, removed := false, info := info } } ∧
      ((allInfo.empty st reg).add (.machine { Id := "0", InstanceId := iid })).latestRevno = 1 ∧
      ((allInfo.empty st reg).add (.machine { Id := "0", InstanceId := iid })).changesSince 0 =
        ([{ Removed := false, Entity := .machine { Id := "0", InstanceId := iid } }], 1) ∧
      (EntityInfo.machine { Id := "0", InstanceId := iid }).EntityKind = "machine" ∧
      (EntityInfo.machine { Id := "0", InstanceId := iid }).EntityId = "0" := by
  refine ⟨rfl, rfl, ?_, ?_, ?_, rfl, rfl⟩
  · simp [allInfo.elem, allInfo.add, mapGet_mapSet_self, elemAt]
  · simp [allInfo.add, allInfo.empty]
  · simp [allInfo.changesSince, allInfo.newRevno, allInfo.add, allInfo.empty, allInfo.iter]

/-! ## update -/

/-- Claim C6: for every store with global revno n and every id that has an
entry, when the document fetch succeeds with info i, `update(id)` yields a store
with global revno n+1 in which that entry holds info i with revno n+1 and is at
the front, while every other entry keeps its info, revno, removed flag and
relative order, and the index is the same. -/
theorem update_found_spec (a : allInfo) (id : entityId) (i z : EntityInfo) (e : Element)
    (hreg : registryGet a.newInfo id.collection = some z)
    (hnd : (addrs a.list).Nodup)
    (helem : a.elem id = some e) :
    ∃ a2 : allInfo,
      a.update id (.found i) = .ok a2 ∧
      a2.latestRevno = a.latestRevno + 1 ∧
      a2.list =
        { addr := e.addr,
          Value := { revno := a.latestRevno + 1, removed := e.Value.removed, info := i } } ::
          a.list.erase e ∧
      a2.entities = a.entities ∧
      a2.elem id =
        some { addr := e.addr,
               Value := { revno := a.latestRevno + 1, removed := e.Value.removed, info := i } } := by
  have hmem : e ∈ a.list := by
    unfold allInfo.elem at helem
    split at helem
    · simp at helem
    · exact (elemAt_some helem).1
  have hget : mapGet a.entities id = some e.addr := by
    unfold allInfo.elem at helem
    split at helem
    · simp at helem
    · rename_i p hp
      rw [hp, (elemAt_some helem).2]
  refine ⟨{ a with
            latestRevno := a.latestRevno + 1
            list := { addr := e.addr,
                      Value := { e.Value with revno := a.latestRevno + 1, info := i } } ::
                    listRemove a.list e.addr }, ?_, rfl, ?_, rfl, ?_⟩
  · simp only [allInfo.update, hreg, helem]
  · simp only [listRemove_eq_erase hnd hmem]
  · simp [allInfo.elem, hget, elemAt]

/-- Witness of `update_found_spec`: machine "0" gets a new instance id in the
store holding machines "0" and "1". -/
theorem update_found_spec_witness :
    registryGet store2.newInfo id0.collection = some (.machine { Id := "", InstanceId := "" }) ∧
      (addrs store2.list).Nodup ∧
      store2.elem id0 = some { addr := 0, Value := { revno := 1, removed := false, info := machine0 } } ∧
      ∃ a2 : allInfo,
        store2.update id0 (.found machine0b) = .ok a2 ∧
        a2.latestRevno = store2.latestRevno + 1 ∧
        a2.list =
          { addr := 0, Value := { revno := store2.latestRevno + 1, removed := false, info := machine0b } } ::
            store2.list.erase { addr := 0, Value := { revno := 1, removed := false, info := machine0 } } ∧
        a2.entities = store2.entities ∧
        a2.elem id0 =
          some { addr := 0, Value := { revno := store2.latestRevno + 1, removed := false, info := machine0b } } :=
  ⟨by decide, by decide, by decide,
    update_found_spec store2 id0 machine0b (.machine { Id := "", InstanceId := "" })
      { addr := 0, Value := { revno := 1, removed := false, info := machine0 } }
      (by decide) (by decide) (by decide)⟩

/-- Claim C7: for every store and every id that has no entry, when the document
fetch reports not-found, `update(id)` returns no error and leaves the store
unchanged (same sequence, same index, same global revno), so `changesSince(R)`
returns the same result before and after for every R. -/
theorem update_notFound_absent (a : allInfo) (id : entityId) (z : EntityInfo)
    (hreg : registryGet a.newInfo id.collection = some z)
    (habsent : mapGet a.entities id = none) :
    a.update id .notFound = .ok a ∧
      ∀ a2, a.update id .notFound = .ok a2 →
        a2.list = a.list ∧ a2.entities = a.entities ∧ a2.latestRevno = a.latestRevno ∧
          ∀ R, a2.changesSince R = a.changesSince R := by
  have h : a.update id .notFound = .ok a := by
    simp [allInfo.update, hreg, allInfo.elem, habsent]
  refine ⟨h, ?_⟩
  intro a2 h2
  rw [h] at h2
  cases h2
  exact ⟨rfl, rfl, rfl, fun _ => rfl⟩

/-- Witness of `update_notFound_absent`: a notification for machine "1", never
added, in the store holding machine "0". -/
theorem update_notFound_absent_witness :
    registryGet store1.newInfo id1.collection = some (.machine { Id := "", InstanceId := "" }) ∧
      mapGet store1.entities id1 = none ∧
      (store1.update id1 .notFound = .ok store1 ∧
        ∀ a2, store1.update id1 .notFound = .ok a2 →
          a2.list = store1.list ∧ a2.entities = store1.entities ∧
            a2.latestRevno = store1.latestRevno ∧
            ∀ R, a2.changesSince R = store1.changesSince R) :=
  ⟨by decide, by decide,
    update_notFound_absent store1 id1 (.machine { Id := "", InstanceId := "" })
      (by decide) (by decide)⟩

/-! ## delete -/

theorem elem_mem_get {a : allInfo} {id : entityId} {e : Element} (h : a.elem id = some e) :
    e ∈ a.list ∧ mapGet a.entities id = some e.addr := by
  unfold allInfo.elem at h
  split at h
  · simp at h
  · rename_i p hp
    exact ⟨(elemAt_some h).1, by rw [hp, (elemAt_some h).2]⟩

theorem elem_none_of_get_none {a : allInfo} {id : entityId} (h : mapGet a.entities id = none) :
    a.elem id = none := by
  simp [allInfo.elem, h]

/-- Claim C8: for every store and id, `delete(id)` fails with the invariant
violation (the panic "deleting entry that has not been marked as removed") if
and only if the id has an entry that is not marked removed, and the store is
then unchanged; if the id has an entry marked removed, that entry is taken out
of the sequence and the index, and all other entries and the global revno are
unchanged; if the id is absent, delete is a no-op; deleting twice equals
deleting once. -/
theorem delete_spec (a : allInfo) (id : entityId) (hnd : (addrs a.list).Nodup) :
    ((∃ msg a2, a.delete id = .panic msg a2) ↔
        ∃ e, a.elem id = some e ∧ e.Value.removed = false) ∧
      (∀ msg a2, a.delete id = .panic msg a2 →
        a2 = a ∧ msg = "deleting entry that has not been marked as removed") ∧
      (∀ e, a.elem id = some e → e.Value.removed = true →
        ∃ a2, a.delete id = .ok a2 ∧
          a2.list = a.list.erase e ∧ e ∉ a2.list ∧
          mapGet a2.entities id = none ∧
          (∀ k, k ≠ id → mapGet a2.entities k = mapGet a.entities k) ∧
          a2.latestRevno = a.latestRevno) ∧
      (mapGet a.entities id = none → a.delete id = .ok a) ∧
      (∀ a2, a.delete id = .ok a2 → a2.delete id = .ok a2) := by
  refine ⟨?_, ?_, ?_, ?_, ?_⟩
  · constructor
    · rintro ⟨msg, a2, h⟩
      unfold allInfo.delete at h
      split at h
      · rename_i e he
        refine ⟨e, he, ?_⟩
        cases hr : e.Value.removed
        · rfl
        · simp [hr] at h
      · simp at h
    · rintro ⟨e, he, hr⟩
      exact ⟨"deleting entry that has not been marked as removed", a,
        by simp [allInfo.delete, he, hr]⟩
  · intro msg a2 h
    unfold allInfo.delete at h
    split at h
    · split at h
      · cases h
        exact ⟨rfl, rfl⟩
      · simp at h
    · simp at h
  · intro e he hr
    have hm := elem_mem_get he
    have hndl : a.list.Nodup := List.Nodup.of_map _ hnd
    refine ⟨{ a with entities := mapDelete a.entities id, list := listRemove a.list e.addr },
      by simp [allInfo.delete, he, hr], ?_, ?_, ?_, ?_, rfl⟩
    · exact listRemove_eq_erase hnd hm.1
    · simp only [listRemove_eq_erase hnd hm.1]
      exact fun h => (List.Nodup.mem_erase_iff hndl).mp h |>.1 rfl
    · exact mapGet_mapDelete_self _ _
    · intro k hk
      exact mapGet_mapDelete_ne _ hk
  · intro h
    simp [allInfo.delete, elem_none_of_get_none h]
  · intro a2 h
    unfold allInfo.delete at h
    split at h
    · split at h
      · simp at h
      · cases h
        simp [allInfo.delete, allInfo.elem, mapGet_mapDelete_self]
    · cases h
      rename_i hnone
      simp [allInfo.delete, hnone]

/-- Witness of `delete_spec`: deleting machine "0" from the store in which it
is marked removed. -/
theorem delete_spec_witness :
    (addrs store1Removed.list).Nodup ∧
      (((∃ msg a2, store1Removed.delete id0 = .panic msg a2) ↔
          ∃ e, store1Removed.elem id0 = some e ∧ e.Value.removed = false) ∧
        (∀ msg a2, store1Removed.delete id0 = .panic msg a2 →
          a2 = store1Removed ∧ msg = "deleting entry that has not been marked as removed") ∧
        (∀ e, store1Removed.elem id0 = some e → e.Value.removed = true →
          ∃ a2, store1Removed.delete id0 = .ok a2 ∧
            a2.list = store1Removed.list.erase e ∧ e ∉ a2.list ∧
            mapGet a2.entities id0 = none ∧
            (∀ k, k ≠ id0 → mapGet a2.entities k = mapGet store1Removed.entities k) ∧
            a2.latestRevno = store1Removed.latestRevno) ∧
        (mapGet store1Removed.entities id0 = none → store1Removed.delete id0 = .ok store1Removed) ∧
        (∀ a2, store1Removed.delete id0 = .ok a2 → a2.delete id0 = .ok a2)) :=
  ⟨by decide, delete_spec store1Removed id0 (by decide)⟩

/-! ## Failing inputs of the removal branch of update -/

/-- Claim C2, the code at the failing input: in the store holding machine "0"
(global revno 1), an update of machine "0" whose fetch reports not-found marks
the entry removed, so the store is mutated, and the global revno stays 1. -/
theorem update_removal_revno_eval :
    store1.update id0 .notFound = .ok store1Removed ∧
      store1Removed ≠ store1 ∧
      store1.latestRevno = 1 ∧ store1Removed.latestRevno = 1 := by
  decide

/-- Claim C3, the code at the failing input: the store holding machine "0" has
global revno 1; after the update that marks machine "0" removed,
`changesSince(1)` returns no delta at all. -/
theorem update_removal_skipped_eval :
    store1.latestRevno = 1 ∧
      store1.update id0 .notFound = .ok store1Removed ∧
      store1Removed.changesSince 1 = ([], 1) := by
  decide

/-- Claim C5, the code at the failing input: in the store holding machine "1"
(revno 2, in front) and machine "0" (revno 1), an update of machine "0" whose
fetch reports not-found returns no error and marks the entry removed, and the
entry keeps revno 1 and its place behind machine "1". -/
theorem update_removal_place_eval :
    store2.elem id0 =
        some { addr := 0, Value := { revno := 1, removed := false, info := machine0 } } ∧
      store2.update id0 .notFound =
        .ok { store2 with
              list := [{ addr := 1, Value := { revno := 2, removed := false, info := machine1 } },
                       { addr := 0, Value := { revno := 1, removed := true, info := machine0 } }] } ∧
      store2.latestRevno = 2 := by
  decide

/-! ## Histories of adds and updates on distinct ids -/

theorem eq_of_addr_eq {l : List Element} (hnd : (addrs l).Nodup) {x y : Element}
    (hx : x ∈ l) (hy : y ∈ l) (h : x.addr = y.addr) : x = y :=
  List.inj_on_of_nodup_map hnd hx hy h

theorem elemAt_of_mem {l : List Element} (hnd : (addrs l).Nodup) {e : Element} (he : e ∈ l) :
    elemAt l e.addr = some e := by
  cases h : elemAt l e.addr with
  | none =>
    unfold elemAt at h
    have := List.find?_eq_none.mp h e he
    simp at this
  | some x =>
    have hx := elemAt_some h
    rw [eq_of_addr_eq hnd hx.1 he hx.2]

theorem Inv.elem_of_get {st : State} {f : entityId → Option EntityInfo} {a : allInfo}
    (h : Inv st f a) {k : entityId} {p : Nat} (hget : mapGet a.entities k = some p) :
    ∃ e, a.elem k = some e ∧ e ∈ a.list ∧ e.addr = p ∧ infoEntityId st e.Value.info = k := by
  obtain ⟨e, he, hp, hk⟩ := h.index_sound k p hget
  refine ⟨e, ?_, he, hp, hk⟩
  simp only [allInfo.elem, hget]
  rw [← hp]
  exact elemAt_of_mem h.nodup he

theorem Inv.get_none_of_elem_none {st : State} {f : entityId → Option EntityInfo} {a : allInfo}
    (h : Inv st f a) {k : entityId} (hnone : a.elem k = none) : mapGet a.entities k = none := by
  cases hget : mapGet a.entities k with
  | none => rfl
  | some p =>
    obtain ⟨e, he, _⟩ := h.elem_of_get hget
    rw [hnone] at he
    cases he

theorem Inv.elem_info {st : State} {f : entityId → Option EntityInfo} {a : allInfo}
    (h : Inv st f a) {k : entityId} {e : Element} (he : a.elem k = some e) :
    infoEntityId st e.Value.info = k := by
  have hm := elem_mem_get he
  obtain ⟨x, hx, _, hp, hk⟩ := h.elem_of_get hm.2
  rw [he] at hx
  cases hx
  exact hk

theorem Inv.empty (st : State) (reg : List (String × EntityInfo)) :
    Inv st (fun _ => none) (allInfo.empty st reg) where
  st_eq := rfl
  nodup := by simp [allInfo.empty, addrs]
  alloc := by simp [allInfo.empty]
  index_sound := by simp [allInfo.empty, mapGet]
  index_complete := by simp [allInfo.empty]
  latest := by simp [allInfo.empty]

theorem Inv.add {st : State} {f : entityId → Option EntityInfo} {a : allInfo}
    (h : Inv st f a) (info : EntityInfo)
    (hnew : mapGet a.entities (infoEntityId st info) = none) :
    Inv st (Function.update f (infoEntityId st info) (some info)) (a.add info) := by
  have hst := h.st_eq
  have hne : ∀ e ∈ a.list, infoEntityId st e.Value.info ≠ infoEntityId st info := by
    intro e he heq
    have := h.index_complete e he
    rw [heq, hnew] at this
    cases this
  refine ⟨hst, ?_, ?_, ?_, ?_, ?_⟩
  · have hfresh : a.nextAddr ∉ addrs a.list := by
      intro hmem
      obtain ⟨e, he, hea⟩ := List.mem_map.mp hmem
      have := h.alloc e he
      omega
    simpa [allInfo.add, addrs] using List.nodup_cons.mpr ⟨hfresh, h.nodup⟩
  · intro e he
    simp only [allInfo.add, List.mem_cons] at he ⊢
    rcases he with he | he
    · subst he
      simp
    · have := h.alloc e he
      omega
  · intro k p hget
    simp only [allInfo.add, hst] at hget ⊢
    by_cases hk : k = infoEntityId st info
    · subst hk
      rw [mapGet_mapSet_self] at hget
      cases hget
      exact ⟨_, List.mem_cons_self _ _, rfl, rfl⟩
    · rw [mapGet_mapSet_ne _ _ hk] at hget
      obtain ⟨e, he, hp, hek⟩ := h.index_sound k p hget
      exact ⟨e, List.mem_cons_of_mem _ he, hp, hek⟩
  · intro e he
    simp only [allInfo.add, hst, List.mem_cons] at he ⊢
    rcases he with he | he
    · subst he
      exact mapGet_mapSet_self _ _ _
    · rw [mapGet_mapSet_ne _ _ (hne e he)]
      exact h.index_complete e he
  · intro e he
    simp only [allInfo.add, List.mem_cons] at he
    rcases he with he | he
    · subst he
      simp
    · rw [Function.update_noteq (hne e he)]
      exact h.latest e he

theorem addrs_markRemoved (l : List Element) (p : Nat) : addrs (markRemoved l p) = addrs l := by
  unfold addrs markRemoved
  rw [List.map_map]
  apply List.map_congr_left
  intro e _
  by_cases h : e.addr = p <;> simp [h]

theorem mem_markRemoved {l : List Element} {p : Nat} {x : Element} (hx : x ∈ markRemoved l p) :
    ∃ e ∈ l, x.addr = e.addr ∧ x.Value.info = e.Value.info ∧ x.Value.revno = e.Value.revno := by
  unfold markRemoved at hx
  obtain ⟨e, he, hxe⟩ := List.mem_map.mp hx
  refine ⟨e, he, ?_⟩
  by_cases h : e.addr = p
  · simp only [h, if_true] at hxe
    subst hxe
    exact ⟨h.symm, rfl, rfl⟩
  · simp only [h, if_false] at hxe
    subst hxe
    exact ⟨rfl, rfl, rfl⟩

theorem Inv.markRemoved {st : State} {f : entityId → Option EntityInfo} {a : allInfo}
    (h : Inv st f a) (p : Nat) : Inv st f { a with list := markRemoved a.list p } := by
  refine ⟨h.st_eq, ?_, ?_, ?_, ?_, ?_⟩
  · simpa [addrs_markRemoved] using h.nodup
  · intro x hx
    obtain ⟨e, he, ha, _, _⟩ := mem_markRemoved hx
    have := h.alloc e he
    simp only
    omega
  · intro k q hget
    obtain ⟨e, he, hq, hk⟩ := h.index_sound k q hget
    by_cases hp : e.addr = p
    · refine ⟨{ e with Value := { e.Value with removed := true } }, ?_, hq, hk⟩
      exact List.mem_map.mpr ⟨e, he, by simp [hp]⟩
    · exact ⟨e, List.mem_map.mpr ⟨e, he, by simp [hp]⟩, hq, hk⟩
  · intro x hx
    obtain ⟨e, he, ha, hi, _⟩ := mem_markRemoved hx
    rw [ha, hi]
    exact h.index_complete e he
  · intro x hx
    obtain ⟨e, he, _, hi, _⟩ := mem_markRemoved hx
    rw [hi]
    exact h.latest e he

theorem mem_listRemove {l : List Element} {p : Nat} {x : Element} :
    x ∈ listRemove l p ↔ x ∈ l ∧ x.addr ≠ p := by
  simp [listRemove]

theorem Inv.replace {st : State} {f : entityId → Option EntityInfo} {a : allInfo}
    (h : Inv st f a) {id : entityId} {e : Element} (he : a.elem id = some e)
    (info : EntityInfo) (hid : infoEntityId st info = id) (r : Int) :
    Inv st (Function.update f id (some info))
      { a with
        latestRevno := r
        list := { addr := e.addr, Value := { e.Value with revno := r, info := info } } ::
          listRemove a.list e.addr } := by
  have hm := elem_mem_get he
  have hother : ∀ x ∈ listRemove a.list e.addr, infoEntityId st x.Value.info ≠ id := by
    intro x hx hxid
    have hx2 := mem_listRemove.mp hx
    have := h.index_complete x hx2.1
    rw [hxid, hm.2] at this
    exact hx2.2 (Option.some.inj this).symm
  refine ⟨h.st_eq, ?_, ?_, ?_, ?_, ?_⟩
  · have hsub : (addrs (listRemove a.list e.addr)).Nodup :=
      List.Nodup.sublist ((List.filter_sublist a.list).map _) h.nodup
    have hfresh : e.addr ∉ addrs (listRemove a.list e.addr) := by
      intro hmem
      obtain ⟨x, hx, hxa⟩ := List.mem_map.mp hmem
      exact (mem_listRemove.mp hx).2 hxa
    simpa [addrs] using List.nodup_cons.mpr ⟨hfresh, hsub⟩
  · intro x hx
    simp only [List.mem_cons] at hx
    rcases hx with hx | hx
    · subst hx
      exact h.alloc e hm.1
    · exact h.alloc x (mem_listRemove.mp hx).1
  · intro k p hget
    obtain ⟨x, hx, hp, hk⟩ := h.index_sound k p hget
    by_cases hxe : x.addr = e.addr
    · have hxeq : x = e := eq_of_addr_eq h.nodup hx hm.1 hxe
      subst hxeq
      have hkid : k = id := by rw [← hk]; exact h.elem_info he
      subst hkid
      exact ⟨_, List.mem_cons_self _ _, hp, hid⟩
    · exact ⟨x, List.mem_cons_of_mem _ (mem_listRemove.mpr ⟨hx, hxe⟩), hp, hk⟩
  · intro x hx
    simp only [List.mem_cons] at hx
    rcases hx with hx | hx
    · subst hx
      simp only [hid]
      exact hm.2
    · exact h.index_complete x (mem_listRemove.mp hx).1
  · intro x hx
    simp only [List.mem_cons] at hx
    rcases hx with hx | hx
    · subst hx
      show Function.update f id (some info) (infoEntityId st info) = some info
      rw [hid, Function.update_same]
    · rw [Function.update_noteq (hother x hx)]
      exact h.latest x (mem_listRemove.mp hx).1

theorem Inv.update {st : State} {f : entityId → Option EntityInfo} {a a2 : allInfo}
    (h : Inv st f a) (id : entityId) (fetched : FetchResult)
    (hd : (Op.update id fetched).distinct a = true)
    (hs : a.update id fetched = .ok a2) :
    Inv st (latestInfo st f [.update id fetched]) a2 := by
  unfold allInfo.update at hs
  cases hreg : registryGet a.newInfo id.collection with
  | none => simp [hreg] at hs
  | some z =>
    simp only [hreg] at hs
    cases fetched with
    | notFound =>
      simp only at hs
      cases he : a.elem id with
      | none =>
        simp only [he, Outcome.ok.injEq] at hs
        subst hs
        exact h
      | some e =>
        simp only [he, Outcome.ok.injEq] at hs
        subst hs
        exact h.markRemoved e.addr
    | failed err => simp at hs
    | found info =>
      have hid : infoEntityId st info = id := by
        simpa [Op.distinct, h.st_eq] using hd
      simp only at hs
      cases he : a.elem id with
      | none =>
        simp only [he, Outcome.ok.injEq] at hs
        subst hs
        have hnew : mapGet a.entities (infoEntityId st info) = none := by
          rw [hid]
          exact h.get_none_of_elem_none he
        have := h.add info hnew
        rw [hid] at this
        exact this
      | some e =>
        simp only [he, Outcome.ok.injEq] at hs
        subst hs
        exact h.replace he info hid _

theorem iter_eq_takeWhile (R : Int) (l : List Element) :
    allInfo.iter R l = (l.takeWhile (fun e => decide (R < e.Value.revno))).map Element.toDelta := by
  induction l with
  | nil => rfl
  | cons x rest ih =>
    by_cases hx : x.Value.revno ≤ R
    · have hx2 : ¬ (R < x.Value.revno) := by omega
      simp [allInfo.iter, hx, hx2, List.takeWhile]
    · have hx2 : R < x.Value.revno := by omega
      simp [allInfo.iter, hx, hx2, List.takeWhile, ih, Element.toDelta]

/-- Claim C10, the code at the failing input: mongo holds machine "0" with a
changed instance id; in the store holding machine "0" (revno 1), `update` of
machine "0" asks mongo for the document under the id of the value its factory
has just built, the empty string, finds none and marks the entry removed: the
revno stays 1, `changesSince(1)` returns no delta, and `changesSince(0)` returns
the removal of machine "0" with its old info. -/
theorem update_query_eval :
    registryGet store1.newInfo id0.collection =
        some (.machine { Id := "", InstanceId := "" }) ∧
      sampleMongo "machines" "0" = .found machine0b ∧
      sampleMongo "machines" "" = .notFound ∧
      store1.updateFrom sampleMongo id0 = .ok store1Removed ∧
      store1Removed.latestRevno = 1 ∧
      store1Removed.changesSince 1 = ([], 1) ∧
      store1Removed.changesSince 0 = ([{ Removed := true, Entity := machine0 }], 1) := by
  decide

/-! ## Pointer bookkeeping in every reachable store -/

theorem addrsOk_add {a : allInfo} (h : AddrsOk a) (info : EntityInfo) : AddrsOk (a.add info) := by
  constructor
  · have hfresh : a.nextAddr ∉ addrs a.list := by
      intro hmem
      obtain ⟨e, he, hea⟩ := List.mem_map.mp hmem
      have := h.2 e he
      omega
    simpa [allInfo.add, addrs] using List.nodup_cons.mpr ⟨hfresh, h.1⟩
  · intro e he
    simp only [allInfo.add, List.mem_cons] at he ⊢
    rcases he with he | he
    · subst he
      simp
    · have := h.2 e he
      omega

theorem addrsOk_remove {a : allInfo} (h : AddrsOk a) (p : Nat) (m : List (entityId × Nat)) :
    AddrsOk { a with entities := m, list := listRemove a.list p } :=
  ⟨List.Nodup.sublist ((List.filter_sublist a.list).map _) h.1,
    fun e he => h.2 e (mem_listRemove.mp he).1⟩

theorem addrsOk_replace {a : allInfo} (h : AddrsOk a) {e : Element} (he : e ∈ a.list)
    (v : entityEntry) (r : Int) :
    AddrsOk { a with
              latestRevno := r
              list := { addr := e.addr, Value := v } :: listRemove a.list e.addr } := by
  constructor
  · have hfresh : e.addr ∉ addrs (listRemove a.list e.addr) := by
      intro hmem
      obtain ⟨x, hx, hxa⟩ := List.mem_map.mp hmem
      exact (mem_listRemove.mp hx).2 hxa
    simpa [addrs] using List.nodup_cons.mpr ⟨hfresh, (addrsOk_remove h e.addr a.entities).1⟩
  · intro x hx
    simp only [List.mem_cons] at hx
    rcases hx with hx | hx
    · subst hx
      exact h.2 e he
    · exact h.2 x (mem_listRemove.mp hx).1

theorem addrsOk_step {a a2 : allInfo} (h : AddrsOk a) (op : Op) (hs : a.step op = .ok a2) :
    AddrsOk a2 := by
  cases op with
  | add info =>
    simp only [allInfo.step, Outcome.ok.injEq] at hs
    subst hs
    exact addrsOk_add h info
  | delete id =>
    simp only [allInfo.step, allInfo.delete] at hs
    split at hs
    · split at hs
      · simp at hs
      · simp only [Outcome.ok.injEq] at hs
        subst hs
        exact addrsOk_remove h _ _
    · simp only [Outcome.ok.injEq] at hs
      subst hs
      exact h
  | update id fetched =>
    simp only [allInfo.step, allInfo.update] at hs
    split at hs
    · simp at hs
    · cases fetched with
      | failed err => simp at hs
      | notFound =>
        simp only at hs
        split at hs
        · simp only [Outcome.ok.injEq] at hs
          subst hs
          refine ⟨by simpa [addrs_markRemoved] using h.1, ?_⟩
          intro x hx
          obtain ⟨e, he, ha, _, _⟩ := mem_markRemoved hx
          have := h.2 e he
          simp only
          omega
        · simp only [Outcome.ok.injEq] at hs
          subst hs
          exact h
      | found info =>
        simp only at hs
        split at hs
        · rename_i e he
          simp only [Outcome.ok.injEq] at hs
          subst hs
          exact addrsOk_replace h (elem_mem_get he).1 _ _
        · simp only [Outcome.ok.injEq] at hs
          subst hs
          exact addrsOk_add h info

theorem addrsOk_run (ops : List Op) :
    ∀ a a2 : allInfo, AddrsOk a → a.run ops = .ok a2 → AddrsOk a2 := by
  induction ops with
  | nil =>
    intro a a2 h hr
    simp only [allInfo.run, Outcome.ok.injEq] at hr
    subst hr
    exact h
  | cons op rest ih =>
    intro a a2 h hr
    unfold allInfo.run at hr
    cases hs : a.step op with
    | ok a1 =>
      simp only [hs] at hr
      exact ih a1 a2 (addrsOk_step h op hs) hr
    | error msg a1 => simp [hs] at hr
    | panic msg a1 => simp [hs] at hr

/-- In every store reached from the empty store by adds, updates and deletes,
the elements of the list have distinct pointers. -/
theorem run_addrs_nodup (st : State) (reg : List (String × EntityInfo)) (ops : List Op)
    (a : allInfo) (h : (allInfo.empty st reg).run ops = .ok a) : (addrs a.list).Nodup :=
  (addrsOk_run ops _ a ⟨by simp [allInfo.empty, addrs], by simp [allInfo.empty]⟩ h).1

/-! ## Revno order in every reachable store -/

theorem revnos_markRemoved (l : List Element) (p : Nat) : revnos (markRemoved l p) = revnos l := by
  unfold revnos markRemoved
  rw [List.map_map]
  apply List.map_congr_left
  intro e _
  by_cases h : e.addr = p <;> simp [h]

theorem revnoOk_add {a : allInfo} (h : RevnoOk a) (info : EntityInfo) : RevnoOk (a.add info) := by
  constructor
  · have hall : ∀ y ∈ revnos a.list, y < a.latestRevno + 1 := by
      intro y hy
      obtain ⟨e, he, rfl⟩ := List.mem_map.mp hy
      have := h.2 e he
      omega
    simpa [allInfo.add, revnos] using List.pairwise_cons.mpr ⟨hall, h.1⟩
  · intro e he
    simp only [allInfo.add, List.mem_cons] at he ⊢
    rcases he with he | he
    · subst he
      simp
    · have := h.2 e he
      omega

theorem revnoOk_remove {a : allInfo} (h : RevnoOk a) (p : Nat) (m : List (entityId × Nat)) :
    RevnoOk { a with entities := m, list := listRemove a.list p } :=
  ⟨List.Pairwise.sublist ((List.filter_sublist a.list).map _) h.1,
    fun e he => h.2 e (mem_listRemove.mp he).1⟩

theorem revnoOk_replace {a : allInfo} (h : RevnoOk a) (p : Nat) (removed : Bool)
    (info : EntityInfo) :
    RevnoOk { a with
              latestRevno := a.latestRevno + 1
              list := { addr := p,
                        Value := { revno := a.latestRevno + 1, removed := removed, info := info } } ::
                      listRemove a.list p } := by
  constructor
  · have hall : ∀ y ∈ revnos (listRemove a.list p), y < a.latestRevno + 1 := by
      intro y hy
      obtain ⟨e, he, rfl⟩ := List.mem_map.mp hy
      have := h.2 e (mem_listRemove.mp he).1
      omega
    simpa [revnos] using List.pairwise_cons.mpr ⟨hall, (revnoOk_remove h p a.entities).1⟩
  · intro x hx
    simp only [List.mem_cons] at hx
    rcases hx with hx | hx
    · subst hx
      simp
    · have := h.2 x (mem_listRemove.mp hx).1
      simp only
      omega

theorem revnoOk_step {a a2 : allInfo} (h : RevnoOk a) (op : Op) (hs : a.step op = .ok a2) :
    RevnoOk a2 := by
  cases op with
  | add info =>
    simp only [allInfo.step, Outcome.ok.injEq] at hs
    subst hs
    exact revnoOk_add h info
  | delete id =>
    simp only [allInfo.step, allInfo.delete] at hs
    split at hs
    · split at hs
      · simp at hs
      · simp only [Outcome.ok.injEq] at hs
        subst hs
        exact revnoOk_remove h _ _
    · simp only [Outcome.ok.injEq] at hs
      subst hs
      exact h
  | update id fetched =>
    simp only [allInfo.step, allInfo.update] at hs
    split at hs
    · simp at hs
    · cases fetched with
      | failed err => simp at hs
      | notFound =>
        simp only at hs
        split at hs
        · simp only [Outcome.ok.injEq] at hs
          subst hs
          refine ⟨by simpa [revnos_markRemoved] using h.1, ?_⟩
          intro x hx
          obtain ⟨e, he, _, _, hr⟩ := mem_markRemoved hx
          have := h.2 e he
          simp only
          omega
        · simp only [Outcome.ok.injEq] at hs
          subst hs
          exact h
      | found info =>
        simp only at hs
        split at hs
        · simp only [Outcome.ok.injEq] at hs
          subst hs
          exact revnoOk_replace h _ _ _
        · simp only [Outcome.ok.injEq] at hs
          subst hs
          exact revnoOk_add h info

theorem revnoOk_run (ops : List Op) :
    ∀ a a2 : allInfo, RevnoOk a → a.run ops = .ok a2 → RevnoOk a2 := by
  induction ops with
  | nil =>
    intro a a2 h hr
    simp only [allInfo.run, Outcome.ok.injEq] at hr
    subst hr
    exact h
  | cons op rest ih =>
    intro a a2 h hr
    unfold allInfo.run at hr
    cases hs : a.step op with
    | ok a1 =>
      simp only [hs] at hr
      exact ih a1 a2 (revnoOk_step h op hs) hr
    | error msg a1 => simp [hs] at hr
    | panic msg a1 => simp [hs] at hr

theorem revnoOk_empty (st : State) (reg : List (String × EntityInfo)) :
    RevnoOk (allInfo.empty st reg) :=
  ⟨by simp [allInfo.empty, revnos], by simp [allInfo.empty]⟩

/-- Claim C18: in every store reached from the empty store by any sequence of
add, update (any branch) and delete operations, the sequence is ordered by
descending revno: an entry that precedes another has the larger revno, and the
front entry (if any) has the largest revno. -/
theorem run_sorted (st : State) (reg : List (String × EntityInfo)) (ops : List Op)
    (a : allInfo) (h : (allInfo.empty st reg).run ops = .ok a) :
    (revnos a.list).Pairwise (fun x y => y < x) ∧
      ∀ e rest, a.list = e :: rest → ∀ x ∈ rest, x.Value.revno < e.Value.revno := by
  have hok := revnoOk_run ops _ a (revnoOk_empty st reg) h
  refine ⟨hok.1, ?_⟩
  intro e rest hl x hx
  have hp := hok.1
  rw [hl] at hp
  exact (List.pairwise_cons.mp hp).1 _ (List.mem_map_of_mem _ hx)

/-- Witness of `run_sorted`: machines "0" and "1" are added, machine "0" is
updated, marked removed and deleted. -/
theorem run_sorted_witness :
    (allInfo.empty sampleState sampleRegistry).run
        [.add machine0, .add machine1, .update id0 (.found machine0b),
          .update id0 .notFound, .delete id0] = .ok fullHistoryStore ∧
      ((revnos fullHistoryStore.list).Pairwise (fun x y => y < x) ∧
        ∀ e rest, fullHistoryStore.list = e :: rest →
          ∀ x ∈ rest, x.Value.revno < e.Value.revno) :=
  ⟨by decide,
    run_sorted sampleState sampleRegistry
      [.add machine0, .add machine1, .update id0 (.found machine0b),
        .update id0 .notFound, .delete id0] fullHistoryStore (by decide)⟩

theorem latestRevno_step_le {a a2 : allInfo} (op : Op) (hs : a.step op = .ok a2) :
    a.latestRevno ≤ a2.latestRevno := by
  cases op with
  | add info =>
    simp only [allInfo.step, Outcome.ok.injEq] at hs
    subst hs
    simp [allInfo.add]
  | delete id =>
    simp only [allInfo.step, allInfo.delete] at hs
    split at hs
    · split at hs
      · simp at hs
      · simp only [Outcome.ok.injEq] at hs
        subst hs
        exact le_refl _
    · simp only [Outcome.ok.injEq] at hs
      subst hs
      exact le_refl _
  | update id fetched =>
    simp only [allInfo.step, allInfo.update] at hs
    split at hs
    · simp at hs
    · cases fetched with
      | failed err => simp at hs
      | notFound =>
        simp only at hs
        split at hs <;>
        · simp only [Outcome.ok.injEq] at hs
          subst hs
          exact le_refl _
      | found info =>
        simp only at hs
        split at hs
        · simp only [Outcome.ok.injEq] at hs
          subst hs
          simp
        · simp only [Outcome.ok.injEq] at hs
          subst hs
          simp [allInfo.add]

theorem latestRevno_run_le (ops : List Op) :
    ∀ a a2 : allInfo, a.run ops = .ok a2 → a.latestRevno ≤ a2.latestRevno := by
  induction ops with
  | nil =>
    intro a a2 hr
    simp only [allInfo.run, Outcome.ok.injEq] at hr
    subst hr
    exact le_refl _
  | cons op rest ih =>
    intro a a2 hr
    unfold allInfo.run at hr
    cases hs : a.step op with
    | ok a1 =>
      simp only [hs] at hr
      exact le_trans (latestRevno_step_le op hs) (ih a1 a2 hr)
    | error msg a1 => simp [hs] at hr
    | panic msg a1 => simp [hs] at hr

theorem iter_nil_of_le (R : Int) (l : List Element) (h : ∀ e ∈ l, e.Value.revno ≤ R) :
    allInfo.iter R l = [] := by
  cases l with
  | nil => rfl
  | cons x rest => simp [allInfo.iter, h x (List.mem_cons_self _ _)]

/-- Claim C11: for every reachable store s and revno R, if `changesSince(R)` on
s returns (d1, n1), then `changesSince(n1)` on s returns no deltas; for every
store s2 obtained from s by further operations, the deltas of `changesSince(n1)`
on s2 are those of the leading entries of s2, each with revno > n1, and the
baseline it returns is at least n1; every entry of s (so every mutation
reported in d1) has revno at most n1, so no (entity id, revno) pair reported in
d1 is reported again. -/
theorem changesSince_replay (st : State) (reg : List (String × EntityInfo))
    (ops ops2 : List Op) (s s2 : allInfo) (R : Int)
    (h : (allInfo.empty st reg).run ops = .ok s) (h2 : s.run ops2 = .ok s2) :
    (s.changesSince (s.changesSince R).2).1 = [] ∧
      (s2.changesSince (s.changesSince R).2).1 =
        (s2.list.takeWhile (fun e => decide ((s.changesSince R).2 < e.Value.revno))).map
          Element.toDelta ∧
      (s.changesSince R).2 ≤ (s2.changesSince (s.changesSince R).2).2 ∧
      (∀ e ∈ s2.list.takeWhile (fun e => decide ((s.changesSince R).2 < e.Value.revno)),
        (s.changesSince R).2 < e.Value.revno) ∧
      (∀ e ∈ s.list, e.Value.revno ≤ (s.changesSince R).2) ∧
      (∀ e ∈ s.list,
        ∀ e2 ∈ s2.list.takeWhile (fun e => decide ((s.changesSince R).2 < e.Value.revno)),
          (infoEntityId st e.Value.info, e.Value.revno) ≠
            (infoEntityId st e2.Value.info, e2.Value.revno)) := by
  have hok := revnoOk_run ops _ s (revnoOk_empty st reg) h
  have hn : (s.changesSince R).2 = s.latestRevno := rfl
  have hnew : ∀ e ∈ s2.list.takeWhile (fun e => decide (s.latestRevno < e.Value.revno)),
      s.latestRevno < e.Value.revno := by
    intro e he
    simpa using List.mem_takeWhile_imp he
  rw [hn]
  refine ⟨?_, ?_, latestRevno_run_le ops2 s s2 h2, hnew, hok.2, ?_⟩
  · simp only [allInfo.changesSince]
    exact iter_nil_of_le _ _ hok.2
  · simp only [allInfo.changesSince, iter_eq_takeWhile]
  · intro e he e2 he2 heq
    have h1 := hok.2 e he
    have h3 := hnew e2 he2
    have h4 : e.Value.revno = e2.Value.revno := (Prod.mk.inj heq).2
    omega

/-- Witness of `changesSince_replay`: a client reads the store holding machine
"0" from revno 0; machine "0" is then updated. -/
theorem changesSince_replay_witness :
    (allInfo.empty sampleState sampleRegistry).run [.add machine0] = .ok store1 ∧
      store1.run [.update id0 (.found machine0b)] = .ok storeB ∧
      ((store1.changesSince (store1.changesSince 0).2).1 = [] ∧
        (storeB.changesSince (store1.changesSince 0).2).1 =
          (storeB.list.takeWhile
            (fun e => decide ((store1.changesSince 0).2 < e.Value.revno))).map Element.toDelta ∧
        (store1.changesSince 0).2 ≤ (storeB.changesSince (store1.changesSince 0).2).2 ∧
        (∀ e ∈ storeB.list.takeWhile
            (fun e => decide ((store1.changesSince 0).2 < e.Value.revno)),
          (store1.changesSince 0).2 < e.Value.revno) ∧
        (∀ e ∈ store1.list, e.Value.revno ≤ (store1.changesSince 0).2) ∧
        (∀ e ∈ store1.list,
          ∀ e2 ∈ storeB.list.takeWhile
              (fun e => decide ((store1.changesSince 0).2 < e.Value.revno)),
            (infoEntityId sampleState e.Value.info, e.Value.revno) ≠
              (infoEntityId sampleState e2.Value.info, e2.Value.revno))) :=
  ⟨by decide, by decide,
    changesSince_replay sampleState sampleRegistry [.add machine0]
      [.update id0 (.found machine0b)] store1 storeB 0 (by decide) (by decide)⟩

/-! ## The index and the sequence -/

theorem inv_delete {st : State} {f : entityId → Option EntityInfo} {a a2 : allInfo}
    (h : Inv st f a) (id : entityId) (hs : a.delete id = .ok a2) : Inv st f a2 := by
  unfold allInfo.delete at hs
  cases he : a.elem id with
  | none =>
    simp only [he, Outcome.ok.injEq] at hs
    subst hs
    exact h
  | some e =>
    simp only [he] at hs
    split at hs
    · simp at hs
    · simp only [Outcome.ok.injEq] at hs
      subst hs
      have hm := elem_mem_get he
      have hid := h.elem_info he
      refine ⟨h.st_eq, ?_, ?_, ?_, ?_, ?_⟩
      · exact List.Nodup.sublist ((List.filter_sublist a.list).map _) h.nodup
      · intro x hx
        exact h.alloc x (mem_listRemove.mp hx).1
      · intro k p hget
        have hk : k ≠ id := by
          intro hk
          subst hk
          simp only [mapGet_mapDelete_self] at hget
          cases hget
        simp only [mapGet_mapDelete_ne _ hk] at hget
        obtain ⟨x, hx, hp, hxk⟩ := h.index_sound k p hget
        refine ⟨x, mem_listRemove.mpr ⟨hx, ?_⟩, hp, hxk⟩
        intro hxe
        have hxeq : x = e := eq_of_addr_eq h.nodup hx hm.1 hxe
        subst hxeq
        exact hk (hxk.symm.trans hid)
      · intro x hx
        have hx2 := mem_listRemove.mp hx
        have hc := h.index_complete x hx2.1
        have hk : infoEntityId st x.Value.info ≠ id := by
          intro hk
          rw [hk, hm.2] at hc
          exact hx2.2 (Option.some.inj hc).symm
        simp only [mapGet_mapDelete_ne _ hk]
        exact hc
      · intro x hx
        exact h.latest x (mem_listRemove.mp hx).1

theorem inv_runFresh {st : State} (ops : List Op) :
    ∀ (f : entityId → Option EntityInfo) (a a2 : allInfo),
      Inv st f a → a.runFresh ops = some a2 → Inv st (latestInfo st f ops) a2 := by
  induction ops with
  | nil =>
    intro f a a2 h hr
    simp only [allInfo.runFresh, Option.some.injEq] at hr
    subst hr
    exact h
  | cons op rest ih =>
    intro f a a2 h hr
    unfold allInfo.runFresh at hr
    by_cases hd : op.fresh a = true
    · simp only [hd, if_true] at hr
      cases op with
      | add info =>
        simp only [allInfo.step] at hr
        have hnew : mapGet a.entities (infoEntityId st info) = none := by
          simpa [Op.fresh, h.st_eq] using hd
        exact ih _ _ _ (h.add info hnew) hr
      | update id fetched =>
        have hd2 : (Op.update id fetched).distinct a = true := by
          cases fetched with
          | found info => exact hd
          | notFound => rfl
          | failed err => rfl
        cases hs : a.update id fetched with
        | ok a1 =>
          simp only [allInfo.step, hs] at hr
          have h1 := h.update id fetched hd2 hs
          cases fetched with
          | found info => exact ih _ _ _ h1 hr
          | notFound => exact ih _ _ _ h1 hr
          | failed err => exact ih _ _ _ h1 hr
        | error msg a1 => simp [allInfo.step, hs] at hr
        | panic msg a1 => simp [allInfo.step, hs] at hr
      | delete id =>
        cases hs : a.delete id with
        | ok a1 =>
          simp only [allInfo.step, hs] at hr
          exact ih _ _ _ (inv_delete h id hs) hr
        | error msg a1 => simp [allInfo.step, hs] at hr
        | panic msg a1 => simp [allInfo.step, hs] at hr
    · simp [hd] at hr

theorem mem_addrs_listRemove {l : List Element} {p q : Nat} (hq : q ∈ addrs l) (hne : q ≠ p) :
    q ∈ addrs (listRemove l p) := by
  obtain ⟨x, hx, hxq⟩ := List.mem_map.mp hq
  exact List.mem_map.mpr ⟨x, mem_listRemove.mpr ⟨hx, by rw [hxq]; exact hne⟩, hxq⟩

theorem indexOk_add {a : allInfo} (h : IndexOk a) (info : EntityInfo) : IndexOk (a.add info) := by
  have hfresh : ∀ k, mapGet a.entities k ≠ some a.nextAddr := by
    intro k hk
    obtain ⟨e, he, hea⟩ := List.mem_map.mp (h.2.1 k _ hk)
    have := h.1.2 e he
    omega
  refine ⟨addrsOk_add h.1 info, ?_, ?_⟩
  · intro k p hget
    simp only [allInfo.add] at hget ⊢
    by_cases hk : k = infoEntityId a.st info
    · subst hk
      rw [mapGet_mapSet_self] at hget
      cases hget
      simp [addrs]
    · rw [mapGet_mapSet_ne _ _ hk] at hget
      have := h.2.1 k p hget
      simp only [addrs, List.map_cons, List.mem_cons]
      exact Or.inr this
  · intro k1 k2 p h1 h2
    simp only [allInfo.add] at h1 h2
    by_cases hk1 : k1 = infoEntityId a.st info
    · by_cases hk2 : k2 = infoEntityId a.st info
      · rw [hk1, hk2]
      · subst hk1
        rw [mapGet_mapSet_self] at h1
        rw [mapGet_mapSet_ne _ _ hk2] at h2
        cases h1
        exact absurd h2 (hfresh k2)
    · by_cases hk2 : k2 = infoEntityId a.st info
      · subst hk2
        rw [mapGet_mapSet_self] at h2
        rw [mapGet_mapSet_ne _ _ hk1] at h1
        cases h2
        exact absurd h1 (hfresh k1)
      · rw [mapGet_mapSet_ne _ _ hk1] at h1
        rw [mapGet_mapSet_ne _ _ hk2] at h2
        exact h.2.2 k1 k2 p h1 h2

theorem indexOk_step {a a2 : allInfo} (h : IndexOk a) (op : Op) (hs : a.step op = .ok a2) :
    IndexOk a2 := by
  have hok := addrsOk_step h.1 op hs
  cases op with
  | add info =>
    simp only [allInfo.step, Outcome.ok.injEq] at hs
    subst hs
    exact indexOk_add h info
  | delete id =>
    simp only [allInfo.step, allInfo.delete] at hs
    split at hs
    · rename_i e he
      split at hs
      · simp at hs
      · simp only [Outcome.ok.injEq] at hs
        subst hs
        have hm := elem_mem_get he
        refine ⟨hok, ?_, ?_⟩
        · intro k p hget
          have hk : k ≠ id := by
            intro hk
            subst hk
            simp only [mapGet_mapDelete_self] at hget
            cases hget
          simp only [mapGet_mapDelete_ne _ hk] at hget
          refine mem_addrs_listRemove (h.2.1 k p hget) ?_
          intro hp
          subst hp
          exact hk (h.2.2 k id _ hget hm.2)
        · intro k1 k2 p h1 h2
          have hk1 : k1 ≠ id := by
            intro hk
            subst hk
            simp only [mapGet_mapDelete_self] at h1
            cases h1
          have hk2 : k2 ≠ id := by
            intro hk
            subst hk
            simp only [mapGet_mapDelete_self] at h2
            cases h2
          simp only [mapGet_mapDelete_ne _ hk1] at h1
          simp only [mapGet_mapDelete_ne _ hk2] at h2
          exact h.2.2 k1 k2 p h1 h2
    · simp only [Outcome.ok.injEq] at hs
      subst hs
      exact h
  | update id fetched =>
    simp only [allInfo.step, allInfo.update] at hs
    split at hs
    · simp at hs
    · cases fetched with
      | failed err => simp at hs
      | notFound =>
        simp only at hs
        split at hs
        · simp only [Outcome.ok.injEq] at hs
          subst hs
          refine ⟨hok, ?_, h.2.2⟩
          intro k p hget
          simp only [addrs_markRemoved]
          exact h.2.1 k p hget
        · simp only [Outcome.ok.injEq] at hs
          subst hs
          exact h
      | found info =>
        simp only at hs
        split at hs
        · rename_i e he
          simp only [Outcome.ok.injEq] at hs
          subst hs
          refine ⟨hok, ?_, h.2.2⟩
          intro k p hget
          have hp := h.2.1 k p hget
          simp only [addrs, List.map_cons, List.mem_cons]
          by_cases hpe : p = e.addr
          · exact Or.inl hpe
          · exact Or.inr (mem_addrs_listRemove hp hpe)
        · simp only [Outcome.ok.injEq] at hs
          subst hs
          exact indexOk_add h info

theorem indexOk_run (ops : List Op) :
    ∀ a a2 : allInfo, IndexOk a → a.run ops = .ok a2 → IndexOk a2 := by
  induction ops with
  | nil =>
    intro a a2 h hr
    simp only [allInfo.run, Outcome.ok.injEq] at hr
    subst hr
    exact h
  | cons op rest ih =>
    intro a a2 h hr
    unfold allInfo.run at hr
    cases hs : a.step op with
    | ok a1 =>
      simp only [hs] at hr
      exact ih a1 a2 (indexOk_step h op hs) hr
    | error msg a1 => simp [hs] at hr
    | panic msg a1 => simp [hs] at hr

theorem indexOk_empty (st : State) (reg : List (String × EntityInfo)) :
    IndexOk (allInfo.empty st reg) :=
  ⟨⟨by simp [allInfo.empty, addrs], by simp [allInfo.empty]⟩,
    by simp [allInfo.empty, mapGet], by simp [allInfo.empty, mapGet]⟩

/-- Claim C19, as the code has it: in every store reached from the empty store
by any sequence of add, update and delete operations, whatever documents the
updates read, each index value points to an entry of the sequence and distinct
ids point to distinct entries (no dangling entries); when moreover every add is
of an entity whose id has no entry and every document an update finds carries
the id the update was given, the domain of the index is exactly the set of
entity ids present in the sequence, each id occurs in the sequence at most
once, and each index value points to the sequence entry with that id. -/
theorem index_matches_sequence (st : State) (reg : List (String × EntityInfo))
    (ops : List Op) (a : allInfo) (h : (allInfo.empty st reg).run ops = .ok a) :
    (∀ k p, mapGet a.entities k = some p →
        ∃ e, a.elem k = some e ∧ e ∈ a.list ∧ e.addr = p) ∧
      (∀ k1 k2 p, mapGet a.entities k1 = some p → mapGet a.entities k2 = some p → k1 = k2) ∧
      ((allInfo.empty st reg).runFresh ops = some a →
        (∀ k, (mapGet a.entities k).isSome ↔ k ∈ entryIds st a.list) ∧
          (entryIds st a.list).Nodup ∧
          (∀ k p, mapGet a.entities k = some p →
            ∃ e, a.elem k = some e ∧ e ∈ a.list ∧ e.addr = p ∧
              infoEntityId st e.Value.info = k)) := by
  have hidx := indexOk_run ops _ a (indexOk_empty st reg) h
  refine ⟨?_, hidx.2.2, ?_⟩
  · intro k p hget
    obtain ⟨e, he, hep⟩ := List.mem_map.mp (hidx.2.1 k p hget)
    refine ⟨e, ?_, he, hep⟩
    simp only [allInfo.elem, hget]
    rw [← hep]
    exact elemAt_of_mem hidx.1.1 he
  · intro hf
    have hinv := inv_runFresh ops _ _ _ (Inv.empty st reg) hf
    refine ⟨?_, ?_, ?_⟩
    · intro k
      constructor
      · intro hk
        obtain ⟨p, hp⟩ := Option.isSome_iff_exists.mp hk
        obtain ⟨e, he, _, hek⟩ := hinv.index_sound k p hp
        exact List.mem_map.mpr ⟨e, he, hek⟩
      · intro hk
        obtain ⟨e, he, hek⟩ := List.mem_map.mp hk
        have := hinv.index_complete e he
        rw [hek] at this
        simp [this]
    · refine List.Nodup.map_on ?_ (List.Nodup.of_map _ hinv.nodup)
      intro x hx y hy hxy
      have h1 := hinv.index_complete x hx
      have h2 := hinv.index_complete y hy
      rw [hxy, h2] at h1
      exact eq_of_addr_eq hinv.nodup hx hy (Option.some.inj h1).symm
    · intro k p hget
      exact hinv.elem_of_get hget

/-- Witness of `index_matches_sequence`: the history `keyedHistory`. -/
theorem index_matches_sequence_witness :
    (allInfo.empty sampleState sampleRegistry).run keyedHistory = .ok keyedHistoryStore ∧
      (allInfo.empty sampleState sampleRegistry).runFresh keyedHistory =
        some keyedHistoryStore ∧
      ((∀ k p, mapGet keyedHistoryStore.entities k = some p →
          ∃ e, keyedHistoryStore.elem k = some e ∧ e ∈ keyedHistoryStore.list ∧ e.addr = p) ∧
        (∀ k1 k2 p, mapGet keyedHistoryStore.entities k1 = some p →
          mapGet keyedHistoryStore.entities k2 = some p → k1 = k2) ∧
        ((allInfo.empty sampleState sampleRegistry).runFresh keyedHistory =
            some keyedHistoryStore →
          (∀ k, (mapGet keyedHistoryStore.entities k).isSome ↔
              k ∈ entryIds sampleState keyedHistoryStore.list) ∧
            (entryIds sampleState keyedHistoryStore.list).Nodup ∧
            (∀ k p, mapGet keyedHistoryStore.entities k = some p →
              ∃ e, keyedHistoryStore.elem k = some e ∧ e ∈ keyedHistoryStore.list ∧
                e.addr = p ∧ infoEntityId sampleState e.Value.info = k))) :=
  ⟨by decide, by decide,
    index_matches_sequence sampleState sampleRegistry keyedHistory keyedHistoryStore
      (by decide)⟩

/-- Claim C19 as stated fails, in two ways.  After `add(machine "0")` on the
empty store, an add of an info with the same entity id leaves two entries for
machine "0" in the sequence, and the index points to the new one only.  And
with a mongo whose machines collection holds a document under the empty id,
an update of machine "0" in the store holding machine "0" reads that document
into the entry of machine "0": the sequence then holds the empty id, which the
index lacks, and the index holds machine "0", which the sequence lacks. -/
theorem add_existing_counterexample :
    ((allInfo.empty sampleState sampleRegistry).run [.add machine0, .add machine0b] =
        .ok (store1.add machine0b) ∧
      entryIds sampleState (store1.add machine0b).list = [id0, id0] ∧
      ¬ (entryIds sampleState (store1.add machine0b).list).Nodup ∧
      mapGet (store1.add machine0b).entities id0 = some 1 ∧
      addrs (store1.add machine0b).list = [1, 0]) ∧
    (sampleMongoNoId "machines" "" = .found machineNoId ∧
      store1.updateFrom sampleMongoNoId id0 = .ok store1Mismatched ∧
      (allInfo.empty sampleState sampleRegistry).run
          [.add machine0, .update id0 (.found machineNoId)] = .ok store1Mismatched ∧
      entryIds sampleState store1Mismatched.list = [idNo] ∧
      mapGet store1Mismatched.entities idNo = none ∧
      mapGet store1Mismatched.entities id0 = some 0 ∧
      ¬ (∀ k, (mapGet store1Mismatched.entities k).isSome ↔
          k ∈ entryIds sampleState store1Mismatched.list)) := by
  refine ⟨by decide, by decide, by decide, by decide, by decide, by decide, by decide, ?_⟩
  intro hall
  have h0 := (hall id0).mp (by decide)
  exact absurd h0 (by decide)

/-! ## Errors of update -/

/-- Claim C14, as the code has it: for every store and every id whose
collection name has no factory in the table, `update(id)` panics on the call of
the nil factory, whatever the document, and leaves the store unchanged; it
returns no error value, and the loop handling the notification panics. -/
theorem update_unknown_kind (a : allInfo) (id : entityId) (fetched : FetchResult)
    (h : registryGet a.newInfo id.collection = none) :
    a.update id fetched = .panic "runtime error: invalid memory address or nil pointer dereference" a ∧
      (¬ ∃ msg a2, a.update id fetched = .error msg a2) ∧
      ∀ cur rest,
        StateWatcher.loop a cur (.change id.collection id.id fetched :: rest) =
          .panicked "runtime error: invalid memory address or nil pointer dereference" := by
  have hu : a.update id fetched = .panic "runtime error: invalid memory address or nil pointer dereference" a := by
    simp [allInfo.update, h]
  refine ⟨hu, ?_, ?_⟩
  · rintro ⟨msg, a2, he⟩
    rw [hu] at he
    cases he
  · intro cur rest
    have hid : ({ collection := id.collection, id := id.id } : entityId) = id := rfl
    simp only [StateWatcher.loop, hid, hu]

/-- Witness of `update_unknown_kind`: a notification for the "services"
collection, for which the table has no factory. -/
theorem update_unknown_kind_witness :
    registryGet store1.newInfo "services" = none ∧
      (store1.update { collection := "services", id := "wordpress" } .notFound =
          .panic "runtime error: invalid memory address or nil pointer dereference" store1 ∧
        (¬ ∃ msg a2,
          store1.update { collection := "services", id := "wordpress" } .notFound =
            .error msg a2) ∧
        ∀ cur rest,
          StateWatcher.loop store1 cur (.change "services" "wordpress" .notFound :: rest) =
            .panicked "runtime error: invalid memory address or nil pointer dereference") :=
  ⟨by decide,
    update_unknown_kind store1 { collection := "services", id := "wordpress" } .notFound
      (by decide)⟩

/-- Claim C14 as stated fails: in the store holding machine "0", whose table
has a factory for "machines" only, `update` of an id of the "services"
collection is a panic, not a returned error value. -/
theorem update_unknown_kind_counterexample :
    registryGet store1.newInfo "services" = none ∧
      store1.update { collection := "services", id := "wordpress" } (.found machine0) =
        .panic "runtime error: invalid memory address or nil pointer dereference" store1 ∧
      ¬ ∃ msg a2,
          store1.update { collection := "services", id := "wordpress" } (.found machine0) =
            .error msg a2 := by
  refine ⟨by decide, by decide, ?_⟩
  rintro ⟨msg, a2, he⟩
  have hu : store1.update { collection := "services", id := "wordpress" } (.found machine0) =
      .panic "runtime error: invalid memory address or nil pointer dereference" store1 := by decide
  rw [hu] at he
  cases he

/-- Claim C15: for every store and every id of a registered kind, `update(id)`
returns an error if and only if the document fetch fails with an error other
than not-found; the store is then unchanged, and the loop handling that change
notification returns that error. -/
theorem update_error_iff (a : allInfo) (id : entityId) (fetched : FetchResult) (z : EntityInfo)
    (hreg : registryGet a.newInfo id.collection = some z) :
    ((∃ msg a2, a.update id fetched = .error msg a2) ↔ ∃ err, fetched = .failed err) ∧
      ∀ msg a2, a.update id fetched = .error msg a2 →
        a2 = a ∧
          ∀ cur rest,
            StateWatcher.loop a cur (.change id.collection id.id fetched :: rest) =
              .returned msg := by
  refine ⟨?_, ?_⟩
  · constructor
    · rintro ⟨msg, a2, he⟩
      cases fetched with
      | failed err => exact ⟨err, rfl⟩
      | notFound =>
        simp only [allInfo.update, hreg] at he
        split at he <;> cases he
      | found info =>
        simp only [allInfo.update, hreg] at he
        split at he <;> cases he
    · rintro ⟨err, rfl⟩
      exact ⟨"cannot get " ++ id.id ++ " from " ++ (infoCollection a.st z).Name ++ ": " ++ err, a,
        by simp only [allInfo.update, hreg]⟩
  · intro msg a2 he
    have hid : ({ collection := id.collection, id := id.id } : entityId) = id := rfl
    refine ⟨?_, ?_⟩
    · cases fetched with
      | failed err =>
        simp only [allInfo.update, hreg, Outcome.error.injEq] at he
        exact he.2.symm
      | notFound =>
        simp only [allInfo.update, hreg] at he
        split at he <;> cases he
      | found info =>
        simp only [allInfo.update, hreg] at he
        split at he <;> cases he
    · intro cur rest
      simp only [StateWatcher.loop, hid, he]

/-- Witness of `update_error_iff`: the fetch of machine "0" fails with "EOF". -/
theorem update_error_iff_witness :
    registryGet store1.newInfo id0.collection = some (.machine { Id := "", InstanceId := "" }) ∧
      (((∃ msg a2, store1.update id0 (.failed "EOF") = .error msg a2) ↔
          ∃ err, FetchResult.failed "EOF" = .failed err) ∧
        ∀ msg a2, store1.update id0 (.failed "EOF") = .error msg a2 →
          a2 = store1 ∧
            ∀ cur rest,
              StateWatcher.loop store1 cur (.change id0.collection id0.id (.failed "EOF") :: rest) =
                .returned msg) :=
  ⟨by decide,
    update_error_iff store1 id0 (.failed "EOF") (.machine { Id := "", InstanceId := "" })
      (by decide)⟩

/-! ## Requests in the loop -/

/-- Claim C16, the code at the failing input: from the empty store with no
current request, the loop receives two requests and then a change whose read
finds a document of no known entity; neither request aborts the loop and the
document is added, but a request leaves no trace in the loop, which goes on as
if it had not been received and holds no current request afterwards: no reply
is sent to either `Get`, where each should receive the one delta and revno 1
that `changesSince(0)` gives. -/
theorem loop_requests_eval (r1 r2 : getRequest) (Id : String) (info : EntityInfo) :
    StateWatcher.loop store0 none
        [.request r1, .request r2, .change "machines" Id (.found info)] =
        .running (store0.add info) none ∧
      StateWatcher.loop store0 none [.change "machines" Id (.found info)] =
        .running (store0.add info) none ∧
      (store0.add info).changesSince 0 = ([{ Removed := false, Entity := info }], 1) ∧
      ∀ (all : allInfo) (req : getRequest) (rest : List LoopEvent),
        StateWatcher.loop all none (.request req :: rest) = StateWatcher.loop all none rest := by
  have hreg : registryGet store0.newInfo "machines" =
      some (.machine { Id := "", InstanceId := "" }) := by decide
  have hel : store0.elem { collection := "machines", id := Id } = none := rfl
  have hu : store0.update { collection := "machines", id := Id } (.found info) =
      .ok (store0.add info) := by
    simp only [allInfo.update, hreg, hel]
  refine ⟨?_, ?_, ?_, ?_⟩
  · simp only [StateWatcher.loop, hu]
  · simp only [StateWatcher.loop, hu]
  · simp [allInfo.changesSince, allInfo.newRevno, allInfo.add, allInfo.iter, store0,
      allInfo.empty]
  · intro all req rest
    simp only [StateWatcher.loop]

/-! ## The JSON form of a Delta: failing inputs -/

/-- Claim C12, the code at the failing input: for the change of machine "0",
whose payload marshals to an object, `MarshalJSON` writes the opening bracket
twice: its output is "[" followed by the array of kind, tag and payload, with
two opening square brackets and one closing one; an error of `json.Marshal` is
returned as it is. -/
theorem marshalJSON_eval :
    Delta.MarshalJSON sampleMarshal { Removed := false, Entity := machine0 } =
        .ok ("[" ++ wireMachine0) ∧
      ("[" ++ wireMachine0).data.count '[' = 2 ∧
      ("[" ++ wireMachine0).data.count ']' = 1 ∧
      Delta.MarshalJSON (fun _ => .error "json: unsupported type")
        { Removed := false, Entity := machine0 } = .error "json: unsupported type" := by
  decide

/-- Claim C13, the code at the failing input: the output of `MarshalJSON` for
the change of machine "0" is rejected by the decoder, since its brackets do not
balance; the array of kind, tag and payload itself is rejected too, since the
decoder reads the tag first; the decoder accepts the array of tag and kind. -/
theorem unmarshalJSON_eval :
    Delta.MarshalJSON sampleMarshal { Removed := false, Entity := machine0 } =
        .ok ("[" ++ wireMachine0) ∧
      Delta.UnmarshalJSON ("[" ++ wireMachine0) = .error "unexpected end of JSON input" ∧
      Delta.UnmarshalJSON wireMachine0 = .error ("bad delta JSON " ++ quote wireMachine0) ∧
      Delta.UnmarshalJSON ("[" ++ quote "change" ++ "," ++ quote "machine" ++ ",null]") =
        .ok { Delete := false, Kind := "machine" } := by
  decide

end Megawatcher

namespace Jujuc

/-! ## relation-get -/

theorem initOf_eq (CE : List String → Option String) (ctx : Context) (rid : Int)
    (args : List String) (h : rid ≠ -1) :
    initOf CE ctx rid args =
      ({ ctx := ctx, RelationId := rid, Key := chosenKey args, UnitName := chosenUnit ctx args },
        if chosenUnit ctx args = "" then some .noUnitId
        else (CE (args.drop 2)).map InitError.checkEmpty) := by
  unfold initOf RelationGetCommand.Init NewRelationGetCommand
  simp only [h, if_false]
  cases args with
  | nil =>
    cases hr : ctx.RemoteUnitName with
    | none => simp [chosenKey, chosenUnit, hr]
    | some name =>
      by_cases hn : name = "" <;> simp [chosenKey, chosenUnit, hr, hn]
  | cons k rest =>
    cases rest with
    | nil =>
      cases hr : ctx.RemoteUnitName with
      | none => simp [chosenKey, chosenUnit, hr]
      | some name =>
        by_cases hn : name = "" <;> simp [chosenKey, chosenUnit, hr, hn]
    | cons u rest2 =>
      cases hr : ctx.RemoteUnitName with
      | none => by_cases hu : u = "" <;> simp [chosenKey, chosenUnit, hr, hu]
      | some name => by_cases hu : u = "" <;> simp [chosenKey, chosenUnit, hr, hu]

theorem initOf_noRelation (CE : List String → Option String) (ctx : Context)
    (args : List String) : (initOf CE ctx (-1) args).2 = some .noRelationId := by
  simp [initOf, RelationGetCommand.Init, NewRelationGetCommand]

/-- Claim C17, as the code has it: for relation-get with a specified relation
id and a resolvable unit, if no key argument is given or the key argument is
"-", `Init` sets Key to the empty string and `Run` writes the complete settings
map; an empty-string key argument is treated like no key: Key is the empty
string and `Run` writes the complete settings map; for any other key argument
k, `Init` sets Key to k and `Run` writes exactly the value stored under k in
the settings (nil when k is absent). -/
theorem relation_get_key (CE : List String → Option String) (ctx : Context) (rid : Int)
    (args : List String) (r : ContextRelation) (s : SettingsMap)
    (hinit : (initOf CE ctx rid args).2 = none)
    (hrel : ctx.Relation rid = some r)
    (hset : (if (initOf CE ctx rid args).1.UnitName = ctx.UnitName then r.Settings
              else r.ReadSettings (initOf CE ctx rid args).1.UnitName) = .ok s) :
    ((args = [] ∨ args.head? = some "-") →
        (initOf CE ctx rid args).1.Key = "" ∧
          (initOf CE ctx rid args).1.Run = .wrote (.settings s)) ∧
      (args.head? = some "" →
        (initOf CE ctx rid args).1.Key = "" ∧
          (initOf CE ctx rid args).1.Run = .wrote (.settings s)) ∧
      (∀ k, args.head? = some k → k ≠ "-" → k ≠ "" →
        (initOf CE ctx rid args).1.Key = k ∧
          (initOf CE ctx rid args).1.Run = .wrote (.item (s.get k))) := by
  have hrid : rid ≠ -1 := by
    intro h
    subst h
    rw [initOf_noRelation] at hinit
    cases hinit
  rw [initOf_eq CE ctx rid args hrid] at hset ⊢
  simp only at hset ⊢
  refine ⟨?_, ?_, ?_⟩
  · intro hk
    have hkey : chosenKey args = "" := by
      rcases hk with hk | hk
      · subst hk
        rfl
      · cases args with
        | nil => rfl
        | cons k rest =>
          simp only [List.head?_cons, Option.some.injEq] at hk
          simp [chosenKey, hk]
    refine ⟨hkey, ?_⟩
    simp only [RelationGetCommand.Run, hrel, hset, hkey, if_true]
  · intro hk
    have hkey : chosenKey args = "" := by
      cases args with
      | nil => rfl
      | cons k rest =>
        simp only [List.head?_cons, Option.some.injEq] at hk
        simp [chosenKey, hk]
    refine ⟨hkey, ?_⟩
    simp only [RelationGetCommand.Run, hrel, hset, hkey, if_true]
  · intro k hk hdash hempty
    have hkey : chosenKey args = k := by
      cases args with
      | nil => simp at hk
      | cons k2 rest =>
        simp only [List.head?_cons, Option.some.injEq] at hk
        subst hk
        simp [chosenKey, hdash]
    refine ⟨hkey, ?_⟩
    simp only [RelationGetCommand.Run, hrel, hset, hkey, hempty, if_false]

/-- Witness of `relation_get_key`: relation-get of the key "host" for the
remote unit of relation 1. -/
theorem relation_get_key_witness :
    (initOf sampleCheckEmpty sampleContext 1 ["host"]).2 = none ∧
      sampleContext.Relation 1 = some sampleRelation ∧
      (if (initOf sampleCheckEmpty sampleContext 1 ["host"]).1.UnitName = sampleContext.UnitName
        then sampleRelation.Settings
        else sampleRelation.ReadSettings
          (initOf sampleCheckEmpty sampleContext 1 ["host"]).1.UnitName) =
        .ok [("host", "10.0.0.2")] ∧
      (((["host"] = [] ∨ ["host"].head? = some "-") →
          (initOf sampleCheckEmpty sampleContext 1 ["host"]).1.Key = "" ∧
            (initOf sampleCheckEmpty sampleContext 1 ["host"]).1.Run =
              .wrote (.settings [("host", "10.0.0.2")])) ∧
        (["host"].head? = some "" →
          (initOf sampleCheckEmpty sampleContext 1 ["host"]).1.Key = "" ∧
            (initOf sampleCheckEmpty sampleContext 1 ["host"]).1.Run =
              .wrote (.settings [("host", "10.0.0.2")])) ∧
        (∀ k, ["host"].head? = some k → k ≠ "-" → k ≠ "" →
          (initOf sampleCheckEmpty sampleContext 1 ["host"]).1.Key = k ∧
            (initOf sampleCheckEmpty sampleContext 1 ["host"]).1.Run =
              .wrote (.item (SettingsMap.get [("host", "10.0.0.2")] k)))) :=
  ⟨by decide, rfl, by decide,
    relation_get_key sampleCheckEmpty sampleContext 1 ["host"] sampleRelation
      [("host", "10.0.0.2")] (by decide) rfl (by decide)⟩

/-- Claim C17 as stated fails: with the empty string for key argument, which is
an argument other than "-", `Init` succeeds with Key the empty string and `Run`
writes the complete settings map, not the value stored under the empty key,
which is nil. -/
theorem relation_get_empty_key_counterexample :
    (initOf sampleCheckEmpty sampleContext 1 [""]).2 = none ∧
      (initOf sampleCheckEmpty sampleContext 1 [""]).1.Key = "" ∧
      (initOf sampleCheckEmpty sampleContext 1 [""]).1.UnitName = "wordpress/0" ∧
      (initOf sampleCheckEmpty sampleContext 1 [""]).1.Run =
        .wrote (.settings [("host", "10.0.0.2")]) ∧
      SettingsMap.get [("host", "10.0.0.2")] "" = none ∧
      (initOf sampleCheckEmpty sampleContext 1 [""]).1.Run ≠ .wrote (.item none) := by
  decide

/-- Claim C20, as the code has it: `Init` fails with "no relation id specified"
if and only if RelationId is -1; otherwise UnitName is the second argument when
one is given, else the remote unit name of the context when one exists, and
`Init` fails with "no unit id specified" exactly when the name so chosen is
empty, which includes an empty second argument beside a remote unit name;
otherwise it succeeds if at most two arguments were given and returns the
error of `cmd.CheckEmpty` for any third or later argument. -/
theorem init_spec (CE : List String → Option String) (hce : ∀ a, CE a = none ↔ a = [])
    (ctx : Context) (rid : Int) (args : List String) :
    ((initOf CE ctx rid args).2 = some .noRelationId ↔ rid = -1) ∧
      InitError.noRelationId.Error = "no relation id specified" ∧
      (rid ≠ -1 → (initOf CE ctx rid args).1.UnitName = chosenUnit ctx args) ∧
      ((initOf CE ctx rid args).2 = some .noUnitId ↔ rid ≠ -1 ∧ chosenUnit ctx args = "") ∧
      InitError.noUnitId.Error = "no unit id specified" ∧
      (rid ≠ -1 → chosenUnit ctx args ≠ "" →
        ((initOf CE ctx rid args).2 = none ↔ args.length ≤ 2) ∧
          (2 < args.length → ∃ err, (initOf CE ctx rid args).2 = some (.checkEmpty err))) := by
  by_cases hrid : rid = -1
  · subst hrid
    simp [initOf_noRelation, InitError.Error]
  · rw [initOf_eq CE ctx rid args hrid]
    refine ⟨?_, rfl, fun _ => rfl, ?_, rfl, ?_⟩
    · by_cases hu : chosenUnit ctx args = ""
      · simp [hu, hrid]
      · cases hc : CE (args.drop 2) <;> simp [hu, hrid, hc]
    · by_cases hu : chosenUnit ctx args = ""
      · simp [hu, hrid]
      · cases hc : CE (args.drop 2) <;> simp [hu, hrid, hc]
    · intro _ hu
      simp only [hu, if_false]
      have hdrop : args.drop 2 = [] ↔ args.length ≤ 2 := List.drop_eq_nil_iff
      refine ⟨?_, ?_⟩
      · rw [← hdrop, ← hce]
        cases hc : CE (args.drop 2) <;> simp
      · intro hlen
        cases hc : CE (args.drop 2) with
        | none =>
          have := hdrop.mp ((hce _).mp hc)
          omega
        | some err => exact ⟨err, rfl⟩

/-- Witness of `init_spec`: relation-get of the key "host" for unit "mysql/1". -/
theorem init_spec_witness :
    (∀ a, sampleCheckEmpty a = none ↔ a = []) ∧
      (((initOf sampleCheckEmpty sampleContext 1 ["host", "mysql/1"]).2 = some .noRelationId ↔
          (1 : Int) = -1) ∧
        InitError.noRelationId.Error = "no relation id specified" ∧
        ((1 : Int) ≠ -1 →
          (initOf sampleCheckEmpty sampleContext 1 ["host", "mysql/1"]).1.UnitName =
            chosenUnit sampleContext ["host", "mysql/1"]) ∧
        ((initOf sampleCheckEmpty sampleContext 1 ["host", "mysql/1"]).2 = some .noUnitId ↔
          (1 : Int) ≠ -1 ∧ chosenUnit sampleContext ["host", "mysql/1"] = "") ∧
        InitError.noUnitId.Error = "no unit id specified" ∧
        ((1 : Int) ≠ -1 → chosenUnit sampleContext ["host", "mysql/1"] ≠ "" →
          ((initOf sampleCheckEmpty sampleContext 1 ["host", "mysql/1"]).2 = none ↔
              ["host", "mysql/1"].length ≤ 2) ∧
            (2 < ["host", "mysql/1"].length →
              ∃ err, (initOf sampleCheckEmpty sampleContext 1 ["host", "mysql/1"]).2 =
                some (.checkEmpty err)))) :=
  ⟨fun a => by simp [sampleCheckEmpty],
    init_spec sampleCheckEmpty (fun a => by simp [sampleCheckEmpty]) sampleContext 1
      ["host", "mysql/1"]⟩

/-- Claim C20 as stated fails: with an empty second argument, `Init` fails with
"no unit id specified" although the context has the remote unit name
"wordpress/0". -/
theorem init_empty_unit_counterexample :
    sampleContext.RemoteUnitName = some "wordpress/0" ∧
      (initOf sampleCheckEmpty sampleContext 1 ["host", ""]).2 = some .noUnitId ∧
      InitError.noUnitId.Error = "no unit id specified" ∧
      (initOf sampleCheckEmpty sampleContext 1 ["host"]).2 = none := by
  decide

end Jujuc
